import Mathlib

/-!
Verification development for the wuicc-flask announcement ingestion core.

The definitions below are a shallow embedding of the Python source:
  * `storeAnnouncements` embeds `AnnouncementService._store_announcements`
    (src/services/announcement_service.py, lines 162-239) together with the
    per-partition table of `AnnouncementBase` rows (src/ann_model.py):
    timestamps are modelled as seconds (`Nat`), a missing/unparsable
    timestamp as `none` (the behaviour of the local `parse_time` helper),
    and the `uuid` column — `uuid3` of `f"{official_id}-{title}"`, unique
    in the table, generated once at construction and never updated — as the
    pair `(official_id, title)` captured at insert time.  `model.query.all()`
    is modelled as the row list in primary-key (insertion) order, and the
    Python dict comprehension `{str(ann.official_id): ann for ann in ...}`,
    which keeps the last row for a duplicated key, as `lastRowId`.
    A commit that violates the unique `uuid` index rolls the whole batch
    back (the `except` branch of `_store_announcements`).
  * `getFromDatabase` embeds `AnnouncementService._get_from_database`:
    the SQL filter `end_time > now` (NULL excluded) and
    `ORDER BY start_time DESC` (SQLite places NULLs last in descending
    order), then the row → dict projection.
  * `shouldRefresh`, `updateRefreshTime`, `getFromCache`, `setToCache`,
    `clearCacheKey` and `getAnnouncements` embed the corresponding methods
    of `AnnouncementService`, with the state restricted to one
    (game, language) key: `St` carries the refresh-record row, the game
    row, the announcement partition, the cache slot for this key and the
    clock (`datetime.utcnow()` / `datetime.now()` collapsed to one `now`).
    The fetch-and-parse pipeline is an oracle argument `fetchRes`: the
    `_fetch_*` helpers catch every exception internally and return `[]`,
    so at this boundary a fetch/parse failure and an empty parse result
    are both the empty list.  `fetchCount` is a ghost counter incremented
    exactly where a `_fetch_*` helper (an outbound fetch cycle) is invoked.
    `get_announcement_model` raises `ValueError` for an unregistered
    (game, language) pair; this is the `Except.error` outcome.
-/

/-- A parsed announcement as produced by the per-game parsers and consumed
by `_store_announcements`: the dict keys `ann_id`, `title`, `content`,
`bannerImage`, `start_time`, `end_time`, `event_type`.  Times are already
converted by `parse_time` (`none` = missing or unparsable). -/
structure ParsedAnn where
  ann_id : String
  title : String
  content : String
  bannerImage : String
  start_time : Option Nat
  end_time : Option Nat
  event_type : String
deriving DecidableEq

/-- A stored announcement row (`AnnouncementBase` in src/ann_model.py).
`uuidKey` models the `uuid` column: `uuid3` of official_id and title at
construction time, never touched by updates.  `raw_data` models the
`json.dumps(ann)` payload. -/
structure AnnRow where
  id : Nat
  official_id : String
  uuidKey : String × String
  title : String
  content : String
  banner_img : String
  start_time : Option Nat
  end_time : Option Nat
  type : String
  raw_data : ParsedAnn
deriving DecidableEq

/-- One (game, language) announcement table: rows in primary-key order,
plus the next autoincrement id. -/
structure Partition where
  rows : List AnnRow
  nextId : Nat
deriving DecidableEq

/-- Well-formedness every real table has: primary keys are unique and
below the autoincrement counter. -/
def Partition.WF (p : Partition) : Prop :=
  (p.rows.map (·.id)).Nodup ∧ ∀ r ∈ p.rows, r.id < p.nextId

/-- The in-place field update of `_store_announcements` for an existing
row: every mutable field is overwritten; `id`, `official_id` and the
`uuid` column are untouched. -/
def updateRow (r : AnnRow) (e : ParsedAnn) : AnnRow :=
  { r with
    title := e.title
    content := e.content
    banner_img := e.bannerImage
    start_time := e.start_time
    end_time := e.end_time
    type := e.event_type
    raw_data := e }

/-- Construction of a new row (`model(**announcement_data)`): the `uuid`
is generated from the official id and title; the primary key is assigned
at flush time. -/
def mkNewRow (e : ParsedAnn) (rid : Nat) : AnnRow :=
  { id := rid
    official_id := e.ann_id
    uuidKey := (e.ann_id, e.title)
    title := e.title
    content := e.content
    banner_img := e.bannerImage
    start_time := e.start_time
    end_time := e.end_time
    type := e.event_type
    raw_data := e }

/-- The `existing_announcements` dict: `{str(ann.official_id): ann for ann
in model.query.all()}` keeps, for each official id, the LAST row in table
order; we record its primary key. -/
def lastRowId (rows : List AnnRow) (k : String) : Option Nat :=
  match rows with
  | [] => none
  | r :: rs =>
    match lastRowId rs k with
    | some i => some i
    | none => if r.official_id = k then some r.id else none

/-- The loop body of `_store_announcements`: the pre-computed dict `m` is
consulted per batch entry; a hit updates the mapped row in place, a miss
appends a fresh row (ids assigned in flush order). -/
def storeLoop (m : String → Option Nat) :
    List ParsedAnn → List AnnRow → List AnnRow → Nat →
    List AnnRow × List AnnRow × Nat
  | [], rows, news, nid => (rows, news, nid)
  | e :: rest, rows, news, nid =>
    match m e.ann_id with
    | some rid =>
      storeLoop m rest (rows.map fun r => if r.id = rid then updateRow r e else r)
        news nid
    | none => storeLoop m rest rows (news ++ [mkNewRow e nid]) (nid + 1)

/-- `_store_announcements`: build the existing-id dict once, run the loop,
then commit.  The commit fails — and the session is rolled back, leaving
the partition unchanged — exactly when the bulk insert violates the unique
index on the `uuid` column. -/
def storeAnnouncements (p : Partition) (batch : List ParsedAnn) : Partition :=
  let m := lastRowId p.rows
  match storeLoop m batch p.rows [] p.nextId with
  | (rows1, news, nid1) =>
    if (news.map (·.uuidKey)).Nodup ∧
        ∀ u ∈ news.map (·.uuidKey), u ∉ rows1.map (·.uuidKey) then
      ⟨rows1 ++ news, nid1⟩
    else p

/-- The record shape `_get_from_database` returns to callers. -/
structure ViewRecord where
  id : Nat
  official_id : String
  title : String
  banner_img : String
  start_time : Option Nat
  end_time : Option Nat
  type : String
deriving DecidableEq

/-- The dict built for each row by `_get_from_database`. -/
def formatRow (r : AnnRow) : ViewRecord :=
  ⟨r.id, r.official_id, r.title, r.banner_img, r.start_time, r.end_time, r.type⟩

/-- The SQL filter `model.end_time > now`: a NULL `end_time` never
satisfies the comparison. -/
def activeAt (now : Nat) (r : AnnRow) : Bool :=
  match r.end_time with
  | some t => decide (now < t)
  | none => false

/-- Sort key for `ORDER BY start_time DESC`: under SQLite NULLs are the
smallest values, hence last in descending order. -/
def startKey : Option Nat → Nat
  | none => 0
  | some t => t + 1

/-- `a` may precede `b` in the descending output. -/
def rowDescLe (a b : AnnRow) : Prop := startKey b.start_time ≤ startKey a.start_time

instance : DecidableRel rowDescLe := fun _ _ => Nat.decLe _ _

instance : IsTotal AnnRow rowDescLe :=
  ⟨fun a b => (Nat.le_total (startKey b.start_time) (startKey a.start_time)).imp id id⟩

instance : IsTrans AnnRow rowDescLe :=
  ⟨fun _ _ _ h1 h2 => Nat.le_trans h2 h1⟩

/-- Descending order on the returned records. -/
def viewDescLe (a b : ViewRecord) : Prop :=
  startKey b.start_time ≤ startKey a.start_time

/-- `_get_from_database`: keep the rows whose `end_time` is strictly in
the future, order by `start_time` descending, project to the caller
shape. -/
def getFromDatabase (p : Partition) (now : Nat) : List ViewRecord :=
  (List.insertionSort rowDescLe (p.rows.filter (activeAt now))).map formatRow

/-- A returned list element of `get_announcements`: the success path of a
refresh returns the parser dicts unchanged, every other path returns the
`_get_from_database` projection — two different dict shapes. -/
inductive OutRecord where
  | fromParser (p : ParsedAnn)
  | fromDb (v : ViewRecord)
deriving DecidableEq

/-- A `RefreshRecord` row (src/models.py) for this (game, language). -/
structure RefreshRec where
  last_refresh : Option Nat
  success : Bool
deriving DecidableEq

/-- The `games` table row for this game (src/models.py): `force_refresh`
is an integer column, 1 = force. -/
structure GameRow where
  enabled : Nat
  force_refresh : Nat
deriving DecidableEq

/-- The state visible to `AnnouncementService` for one (game, language)
key.  `refreshTableExists` / `annTableExists` model whether the
dynamically created per-game tables are registered
(`get_refresh_record_model` returns `None`, `get_announcement_model`
raises, when not).  `cache` is this key's slot of `self._cache`:
`(data, expiration_time)`. -/
structure St where
  now : Nat
  refreshTableExists : Bool
  refreshRec : Option RefreshRec
  gameRow : Option GameRow
  annTableExists : Bool
  part : Partition
  cache : Option (List OutRecord × Nat)
  hits : Nat
  misses : Nat
  expirations : Nat
  fetchCount : Nat
deriving DecidableEq

/-- Seconds in `timedelta(hours=12)`. -/
def twelveHours : Nat := 43200

/-- Seconds in the cache TTL `timedelta(hours=1)`. -/
def cacheTtl : Nat := 3600

/-- `_should_refresh`.  The `except` branch returns `True` (model for the
game missing from `DYNAMIC_MODELS` raises before anything is read).  When
the force flag is observed set it is cleared and committed at once; the
elapsed-time comparison `utcnow() - last_refresh > timedelta(hours=12)` is
truncated subtraction (a future `last_refresh` gives a non-positive
difference, hence `False`). -/
def shouldRefresh (st : St) : Bool × St :=
  if st.refreshTableExists = false then (true, st)
  else
    match st.refreshRec with
    | none => (true, st)
    | some rec =>
      match rec.last_refresh with
      | none => (true, st)
      | some lr =>
        match st.gameRow with
        | some g =>
          if g.force_refresh = 1 then
            (true, { st with gameRow := some { g with force_refresh := 0 } })
          else (decide (twelveHours < st.now - lr), st)
        | none => (decide (twelveHours < st.now - lr), st)

/-- `_update_refresh_time`: create the row if missing, stamp
`last_refresh = utcnow()` and the success flag; when the model is not
registered the raise is caught internally and the session rolled back. -/
def updateRefreshTime (st : St) (success : Bool) : St :=
  if st.refreshTableExists then
    { st with refreshRec := some ⟨some st.now, success⟩ }
  else st

/-- `_get_from_cache`: lazy expiry — an entry whose expiration time has
been reached is popped by the read itself. -/
def getFromCache (st : St) : Option (List OutRecord) × St :=
  match st.cache with
  | none => (none, { st with misses := st.misses + 1 })
  | some (d, exp) =>
    if exp ≤ st.now then
      (none, { st with
               cache := none
               expirations := st.expirations + 1
               misses := st.misses + 1 })
    else (some d, { st with hits := st.hits + 1 })

/-- `_set_to_cache`: store with expiration `now + ttl`. -/
def setToCache (st : St) (d : List OutRecord) : St :=
  { st with cache := some (d, st.now + cacheTtl) }

/-- `clear_cache(game_id, lang)`: pop this key. -/
def clearCacheKey (st : St) : St := { st with cache := none }

/-- The game ids `get_announcements` dispatches on; any other id raises
`ValueError` inside step 5's `try`. -/
def knownGame (g : String) : Bool :=
  g = "genshin" || g = "starrail" || g = "zenless" || g = "wuthering"

/-- Step 5 of `get_announcements` (the `try` block): dispatch the fetch,
and on a non-empty parse store, stamp the refresh record and cache the
parsed list.  Returns the (possibly downgraded) `need_refresh`, the
`announcements` variable and the state.  A missing announcement table
makes `_store_announcements` raise before its own `try`, which step 5
catches, downgrading `need_refresh` and leaving `announcements` at the
parsed (non-empty!) value; an unknown game id raises before any fetch. -/
def refreshStep (game : String) (fetchRes : List ParsedAnn) (st : St) :
    Bool × List OutRecord × St :=
  if knownGame game then
    let st1 := { st with fetchCount := st.fetchCount + 1 }
    if fetchRes = [] then (true, [], st1)
    else
      if st1.annTableExists then
        let st2 := { st1 with part := storeAnnouncements st1.part fetchRes }
        let st3 := updateRefreshTime st2 true
        let st4 := setToCache st3 (fetchRes.map OutRecord.fromParser)
        (true, fetchRes.map OutRecord.fromParser, st4)
      else (false, fetchRes.map OutRecord.fromParser, st1)
  else (false, [], st)

/-- Steps 6-8 of `get_announcements`: when the refresh was skipped,
downgraded or empty, read the active records from the database (raising
for an unregistered pair), cache them if non-empty, and return. -/
def databaseStep (need : Bool) (anns : List OutRecord) (st : St) :
    Except String (List OutRecord) × St :=
  if need = false ∨ anns = [] then
    if st.annTableExists then
      let dbAnns := (getFromDatabase st.part st.now).map OutRecord.fromDb
      (Except.ok dbAnns, if dbAnns = [] then st else setToCache st dbAnns)
    else (Except.error "no announcement table for this game and language", st)
  else (Except.ok anns, st)

/-- `get_announcements(game_id, lang, force_refresh)` for one
(game, language) key, with the fetch pipeline's output supplied as
`fetchRes`.  `Except.error` is the uncaught `ValueError` of
`get_announcement_model` escaping to the caller. -/
def getAnnouncements (game : String) (fetchRes : List ParsedAnn)
    (force : Bool) (st0 : St) : Except String (List OutRecord) × St :=
  let stA := if force then clearCacheKey st0 else st0
  match getFromCache stA with
  | (cached, st2) =>
    match cached, force with
    | some d, false => (Except.ok d, st2)
    | _, _ =>
      match if force then (true, st2) else shouldRefresh st2 with
      | (need, st3) =>
        if need then
          match refreshStep game fetchRes st3 with
          | (need1, anns, st4) => databaseStep need1 anns st4
        else databaseStep false [] st3

/-- Projection used by closed statements about `getAnnouncements`. -/
def okValue : Except String (List OutRecord) → Option (List OutRecord)
  | Except.ok l => some l
  | Except.error _ => none

/-!
Shallow embedding of `ZenlessParser` (src/services/parse/zenless_parser.py).

String processing is modelled over `List Char`: Python `in`, `replace`,
`strip`, `split` and the regexes of the parser are translated
character-by-character below.  An announcement content body (an HTML
string dissected with BeautifulSoup in the source) is modelled by `ZHtml`
at the granularity the parser reads it: its paragraph texts (`<p>`, as
`get_text(strip=True)` yields them), the time-cell paragraph texts of its
gacha table (empty when the body has no table), the match lists of the
three gacha-name regexes, and the `src` of its first `<img>` tag.
`json.dumps(...)` payloads are modelled by the deterministic encodings
`encStub` / `encPicStub` / `encContentOpt`.  Stub timestamps arrive as
`"%Y-%m-%d %H:%M:%S"` strings in these payloads, so the integer branch of
`_timestamp_to_datetime` is not modelled.
-/

/-- Python `pat in s` on strings (`''` is in everything). -/
def listHas (s pat : List Char) : Bool :=
  pat.isPrefixOf s ||
    match s with
    | [] => false
    | _ :: t => listHas t pat

/-- Python `pat in s`. -/
def strHas (s pat : String) : Bool :=
  pat.toList.isPrefixOf s.toList || listHas s.toList pat.toList

/-- Python `str.strip()`. -/
def trimChars (cs : List Char) : List Char :=
  ((cs.dropWhile (·.isWhitespace)).reverse.dropWhile (·.isWhitespace)).reverse

/-- Python `str.strip()` on a `String`. -/
def strTrim (s : String) : String := String.mk (trimChars s.toList)

/-- `re.sub("<.*?>", "", text)`: a `<` opens a candidate tag, the next `>`
closes and removes it; a candidate left open at end of input was never a
match and stays literal. -/
def stripTagsAux : Option (List Char) → List Char → List Char
  | none, [] => []
  | some buf, [] => buf.reverse
  | none, c :: t => if c = '<' then stripTagsAux (some [c]) t else c :: stripTagsAux none t
  | some buf, c :: t =>
    if c = '>' then stripTagsAux none t else stripTagsAux (some (c :: buf)) t

/-- `_remove_html_tags`: strip `<.*?>` then `strip()`. -/
def stripTags (s : String) : String := String.mk (trimChars (stripTagsAux none s.toList))

/-- Python `str.replace(pat, rep)` (non-overlapping, left to right);
the pattern is passed as head and tail so it is never empty. -/
def replaceAll (p0 : Char) (prest rep : List Char) (s : List Char) : List Char :=
  match s with
  | [] => []
  | c :: t =>
    if (p0 :: prest).isPrefixOf (c :: t) then
      rep ++ replaceAll p0 prest rep (t.drop prest.length)
    else c :: replaceAll p0 prest rep t
termination_by s.length
decreasing_by
  all_goals simp [List.length_drop]
  omega

/-- `str.replace` on `String`s (callers only pass non-empty patterns). -/
def strReplace (s pat rep : String) : String :=
  match pat.toList with
  | [] => s
  | p0 :: prest => String.mk (replaceAll p0 prest rep.toList s.toList)

/-- Python `str.split(sep)` for a one-character separator (keeps empty
fields, like `"a--b".split("-")`). -/
def splitChar (sep : Char) : List Char → List (List Char)
  | [] => [[]]
  | c :: t =>
    match splitChar sep t with
    | h :: rest => if c = sep then [] :: h :: rest else (c :: h) :: rest
    | [] => if c = sep then [[], []] else [[c]]

/-- Digits-only token to a number (the `\d+` fields of `strptime`). -/
def digitsToNat (cs : List Char) : Option Nat :=
  if cs ≠ [] ∧ cs.all (·.isDigit) then
    some (cs.foldl (fun n c => n * 10 + (c.toNat - '0'.toNat)) 0)
  else none

/-- Calendar day count used by `datetime`'s validation. -/
def daysInMonth (y m : Nat) : Nat :=
  if m = 2 then if (y % 4 = 0 ∧ y % 100 ≠ 0) ∨ y % 400 = 0 then 29 else 28
  else if m = 4 ∨ m = 6 ∨ m = 9 ∨ m = 11 then 30 else 31

/-- `strptime(d, "%Y-%m-%d")`: a 4-digit year, 1-2 digit month and day,
validated as a calendar date. -/
def parseDatePart (d : List Char) : Option (Nat × Nat × Nat) :=
  match splitChar '-' d with
  | [ys, ms, ds] =>
    match digitsToNat ys, digitsToNat ms, digitsToNat ds with
    | some y, some m, some da =>
      if ys.length = 4 ∧ ms.length ≤ 2 ∧ ds.length ≤ 2 ∧
          1 ≤ m ∧ m ≤ 12 ∧ 1 ≤ da ∧ da ≤ daysInMonth y m then
        some (y, m, da)
      else none
    | _, _, _ => none
  | _ => none

/-- `strptime(t, "%H:%M:%S")` field validation. -/
def parseTimeHms (t : List Char) : Option (Nat × Nat × Nat) :=
  match splitChar ':' t with
  | [hs, ms, ss] =>
    match digitsToNat hs, digitsToNat ms, digitsToNat ss with
    | some h, some mi, some se =>
      if hs.length ≤ 2 ∧ ms.length ≤ 2 ∧ ss.length ≤ 2 ∧
          h ≤ 23 ∧ mi ≤ 59 ∧ se ≤ 59 then some (h, mi, se)
      else none
    | _, _, _ => none
  | _ => none

/-- `strptime(t, "%H:%M")` field validation. -/
def parseTimeHm (t : List Char) : Option (Nat × Nat) :=
  match splitChar ':' t with
  | [hs, ms] =>
    match digitsToNat hs, digitsToNat ms with
    | some h, some mi =>
      if hs.length ≤ 2 ∧ ms.length ≤ 2 ∧ h ≤ 23 ∧ mi ≤ 59 then some (h, mi)
      else none
    | _, _ => none
  | _ => none

/-- Whether `s` parses under `"%Y-%m-%d %H:%M:%S"`. -/
def validYmdHms (s : String) : Bool :=
  match splitChar ' ' s.toList with
  | [d, t] => (parseDatePart d).isSome && (parseTimeHms t).isSome
  | _ => false

/-- Zero padding of `strftime` numeric fields. -/
def pad2 (n : Nat) : String := if n < 10 then "0" ++ toString n else toString n

/-- Zero padding of `strftime`'s `%Y`. -/
def pad4 (n : Nat) : String :=
  if n < 10 then "000" ++ toString n
  else if n < 100 then "00" ++ toString n
  else if n < 1000 then "0" ++ toString n
  else toString n

/-- `strftime("%Y-%m-%d")`. -/
def renderYmd (y mo da : Nat) : String :=
  pad4 y ++ "-" ++ pad2 mo ++ "-" ++ pad2 da

/-- `strftime("%Y-%m-%d %H:%M:%S")`. -/
def renderYmdHms (y mo da h mi se : Nat) : String :=
  renderYmd y mo da ++ " " ++ pad2 h ++ ":" ++ pad2 mi ++ ":" ++ pad2 se

/-- `ZenlessParser._timestamp_to_datetime` on the string branch: an empty
value gives `""`; a value accepted by `strptime("%Y-%m-%d %H:%M:%S")` is
returned unchanged; anything else gives `""`. -/
def timestampToDatetime (s : String) : String :=
  if s = "" then "" else if validYmdHms s then s else ""

/-- `ZenlessParser._parse_content_time`: normalize the locale glyphs and
the server-time suffix, try `"%Y-%m-%d %H:%M:%S"` then `"%Y-%m-%d %H:%M"`
(re-rendered by `strftime`), then the loose date-plus-raw-time fallback;
an unparsable date degrades to `""`. -/
def parseContentTime (s : String) : String :=
  if s = "" then ""
  else
    let t := strTrim (strReplace (strReplace (strReplace (strReplace (strReplace
      s "年" "-") "月" "-") "日" "") "/" "-") "（服务器时间）" "")
    match splitChar ' ' t.toList with
    | [d, tm] =>
      match parseDatePart d with
      | some (y, mo, da) =>
        match parseTimeHms tm with
        | some (h, mi, se) => renderYmdHms y mo da h mi se
        | none =>
          match parseTimeHm tm with
          | some (h, mi) => renderYmdHms y mo da h mi 0
          | none => renderYmd y mo da ++ " " ++ String.mk tm ++ ":00"
      | none => ""
    | d :: tm1 :: tmRest =>
      match parseDatePart d with
      | some (y, mo, da) =>
        renderYmd y mo da ++ " " ++
          String.intercalate " " ((tm1 :: tmRest).map String.mk) ++ ":00"
      | none => ""
    | _ => ""

/-- `str(float(m))` for a matched `\d+\.\d+` string: drop redundant
zeros on either side of the point. -/
def dropLeadZeros : List Char → List Char
  | c :: d :: rest => if c = '0' then dropLeadZeros (d :: rest) else c :: d :: rest
  | cs => cs

/-- Render the float match `ds.fs` the way `str(float(...))` prints it. -/
def floatStr (ds fs : List Char) : String :=
  String.mk (dropLeadZeros ds) ++ "." ++
    String.mk (dropLeadZeros fs.reverse).reverse

/-- `re.findall(r"\d+\.\d+", text)` as a left-to-right scan; the scanner
state holds the digits read so far and, once a point was read, the
fraction digits (both reversed). -/
def extractFloatsAux : Option (List Char × Option (List Char)) → List Char → List String
  | none, [] => []
  | some (_, none), [] => []
  | some (ds, some fs), [] => if fs = [] then [] else [floatStr ds.reverse fs.reverse]
  | none, c :: t =>
    if c.isDigit then extractFloatsAux (some ([c], none)) t
    else extractFloatsAux none t
  | some (ds, none), c :: t =>
    if c.isDigit then extractFloatsAux (some (c :: ds, none)) t
    else if c = '.' then extractFloatsAux (some (ds, some [])) t
    else extractFloatsAux none t
  | some (ds, some fs), c :: t =>
    if c.isDigit then extractFloatsAux (some (ds, some (c :: fs))) t
    else if fs = [] then extractFloatsAux none t
    else floatStr ds.reverse fs.reverse :: extractFloatsAux none t

/-- `ZenlessParser._extract_floats` (up to `str(float(...))` rendering). -/
def extractFloats (s : String) : List String := extractFloatsAux none s.toList

/-- `re.sub(r"\s+", " ", x).strip()`. -/
def collapseWsAux : Bool → List Char → List Char
  | _, [] => []
  | inWs, c :: t =>
    if c.isWhitespace then
      if inWs then collapseWsAux true t else ' ' :: collapseWsAux true t
    else c :: collapseWsAux false t

/-- Whitespace-run collapsing plus `strip()`. -/
def collapseWs (s : String) : String := String.mk (trimChars (collapseWsAux false s.toList))

/-- `re.search(r"「([^」]+)」", s)`: first non-empty bracket group. -/
def firstGroupAux : Option (List Char) → List Char → Option String
  | _, [] => none
  | none, c :: t => if c = '「' then firstGroupAux (some []) t else firstGroupAux none t
  | some mid, c :: t =>
    if c = '」' then
      if mid = [] then firstGroupAux none t else some (String.mk mid.reverse)
    else firstGroupAux (some (c :: mid)) t

/-- First `「...」` group of a title, if any. -/
def firstGroup (s : String) : Option String := firstGroupAux none s.toList

/-- Python `s.split(sep, 1)` glued back into the two halves. -/
def splitFirstOn (s sep : String) : String × String :=
  match (splitChar (sep.toList.headD ' ') s.toList).map String.mk with
  | [] => ("", "")
  | p :: rest => (p, String.intercalate sep rest)

/-- `dict.fromkeys` de-duplication: keep the first occurrence of each
name, preserving order. -/
def dedupKeepFirst (l : List String) : List String :=
  (l.foldl (fun acc x => if x ∈ acc then acc else acc ++ [x]) [])

/-- An announcement content body, at the granularity the parser reads it
(cf. the module comment): `title` and the dissected pieces of the HTML
`content`. -/
structure ZHtml where
  title : String
  paras : List String
  tableTimes : List String
  gachaNames : List String
  sAgents : List String
  sWeapons : List String
  firstImg : String
deriving DecidableEq

/-- An announcement stub of the regular list (`item["list"]` entries). -/
structure ZStub where
  ann_id : Nat
  title : String
  start_time : String
  end_time : String
  banner : String
deriving DecidableEq

/-- An announcement stub of the picture list. -/
structure ZPicStub where
  ann_id : Nat
  title : String
  start_time : String
  end_time : String
  img : String
deriving DecidableEq

/-- A category group of the regular list. -/
structure ZItem where
  type_label : String
  type_id : Nat
  list : List ZStub
deriving DecidableEq

/-- A `type_list` entry of a picture-list group. -/
structure ZPicTypeItem where
  list : List ZPicStub
deriving DecidableEq

/-- A picture-list group. -/
structure ZPicItem where
  type_list : List ZPicTypeItem
deriving DecidableEq

/-- The `"data"` payload of a list response. -/
structure ZPayload where
  list : List ZItem
  pic_list : List ZPicItem
deriving DecidableEq

/-- A list response (`raw_data["list"]` / `raw_data["zh_list"]`); `data`
is `none` when the `"data"` key is missing. -/
structure ZListData where
  data : Option ZPayload
deriving DecidableEq

/-- The raw bundle handed to `ZenlessParser.parse`; the content maps are
keyed by `ann_id`. -/
structure ZRaw where
  listData : ZListData
  zhList : Option ZListData
  contentMap : List (Nat × ZHtml)
  zhContentMap : List (Nat × ZHtml)
  picContentMap : List (Nat × ZHtml)
  zhPicContentMap : List (Nat × ZHtml)
deriving DecidableEq

/-- `raw_data.get("zh_list", raw_data["list"])`. -/
def zhListOf (raw : ZRaw) : ZListData := raw.zhList.getD raw.listData

/-- Dict lookup `map.get(ann_id, {})`, `{}` being falsy. -/
def mapGet (m : List (Nat × ZHtml)) (k : Nat) : Option ZHtml :=
  (m.find? (fun p => p.1 == k)).map (·.2)

/-- The mutable instance state of `ZenlessParser` (`__init__`):
`version_now`, `version_begin_time` and the never-cleared
`seen_titles` set. -/
structure ZState where
  version_now : String
  version_begin_time : String
  seen_titles : List String
deriving DecidableEq

/-- The parser instance as `AnnouncementService.__init__` creates it. -/
def initZState : ZState := ⟨"1.0", "", []⟩

/-- `self.w_engine_gacha_names`. -/
def wEngineGachaNames : List String := ["喧哗奏鸣", "激荡谐振", "灿烂和声", "璀璨韵律"]

/-- `self.ignored_keywords`. -/
def zIgnoredKeywords : List String := ["全新放送", "『嗯呢』从天降", "特别访客", "惊喜派送中"]

/-- `self.supported_languages`. -/
def zSupportedLanguages : List String := ["zh-cn", "zh-tw", "en", "ja", "ko"]

/-- A parsed zenless record (the dict built by the passes). -/
structure ZAnn where
  ann_id : Nat
  title : String
  start_time : String
  end_time : String
  bannerImage : String
  event_type : String
  content : String
  lang : String
deriving DecidableEq

/-- Deterministic stand-in for `json.dumps(announcement)`. -/
def encStub (a : ZStub) : String :=
  String.intercalate "|" [toString a.ann_id, a.title, a.start_time, a.end_time, a.banner]

/-- Deterministic stand-in for `json.dumps(pic_announcement)`. -/
def encPicStub (a : ZPicStub) : String :=
  String.intercalate "|" [toString a.ann_id, a.title, a.start_time, a.end_time, a.img]

/-- Deterministic stand-in for `json.dumps(content_map.get(ann_id, {}))`. -/
def encContentOpt : Option ZHtml → String
  | none => "\x7b\x7d"
  | some c => String.intercalate "|" [c.title, String.intercalate "¶" c.paras]

/-- `_add_to_result_if_unique`: an empty or already-seen title is skipped,
otherwise the title is recorded in `seen_titles` and the record appended. -/
def addToResultIfUnique (st : ZState) (acc : List ZAnn) (a : ZAnn) :
    ZState × List ZAnn :=
  if a.title = "" then (st, acc)
  else if a.title ∈ st.seen_titles then (st, acc)
  else ({ st with seen_titles := a.title :: st.seen_titles }, acc ++ [a])

/-- `_get_zh_title`: the zh content-map title when present, else the
stub's own. -/
def getZhTitle (raw : ZRaw) (a : ZStub) : String :=
  match mapGet raw.zhContentMap a.ann_id with
  | some c => c.title
  | none => a.title

/-- `_get_target_lang_announcement`: identity for `zh-cn`, else the
first stub with the same `ann_id` in the requested-language list. -/
def getTargetLangAnnouncement (raw : ZRaw) (zhA : ZStub) (lang : String) :
    Option ZStub :=
  if lang = "zh-cn" then some zhA
  else
    match raw.listData.data with
    | none => none
    | some pl => pl.list.findSome? (fun it => it.list.find? (fun a => a.ann_id == zhA.ann_id))

/-- `_get_target_lang_pic_announcement`. -/
def getTargetLangPicAnnouncement (raw : ZRaw) (zhA : ZPicStub) (lang : String) :
    Option ZPicStub :=
  if lang = "zh-cn" then some zhA
  else
    match raw.listData.data with
    | none => none
    | some pl =>
      pl.pic_list.findSome? (fun it =>
        it.type_list.findSome? (fun ti => ti.list.find? (fun a => a.ann_id == zhA.ann_id)))

/-- `extract_zzz_event_start_end_time`: find the paragraph holding
`【活动时间】`, read the next paragraph, split once on `-` or `~`, strip
the server-time suffix. -/
def extractZzzEventTime (zc : ZHtml) : String × String :=
  match zc.paras.findIdx? (fun p => strHas p "【活动时间】") with
  | some i =>
    match zc.paras.get? (i + 1) with
    | some t =>
      if strHas t "-" then
        let (s, e) := splitFirstOn t "-"
        (strTrim (strReplace s "（服务器时间）" ""), strTrim (strReplace e "（服务器时间）" ""))
      else if strHas t "~" then
        let (s, e) := splitFirstOn t "~"
        (strTrim (strReplace s "（服务器时间）" ""), strTrim (strReplace e "（服务器时间）" ""))
      else ("", "")
    | none => ("", "")
  | none => ("", "")

/-- `extract_zzz_gacha_start_end_time`: first and last paragraph text of
the table's time cell, whitespace-collapsed; fewer than two texts (or no
table at all) yields empty strings. -/
def extractZzzGachaTime (zc : ZHtml) : String × String :=
  if zc.tableTimes.length < 2 then ("", "")
  else (collapseWs (zc.tableTimes.headD ""), collapseWs (zc.tableTimes.getLastD ""))

/-- Drop the final character (`content_start[:-1]`). -/
def strDropLast (s : String) : String := String.mk s.toList.dropLast

/-- `ZenlessParser._get_time_from_zh_content` for a content body that is
present (callers have already skipped the falsy-dict case): default to
the stub's own timestamps, then override with the content-extracted time,
honouring the `{version_now}版本` reference. -/
def getTimeFromZhContent (st : ZState) (startRaw endRaw : String) (zc : ZHtml) :
    String × String :=
  let start0 := timestampToDatetime startRaw
  let end0 := timestampToDatetime endRaw
  let se :=
    if strHas zc.title "限时频段" || strHas zc.title "调频" then
      let (s, e) := extractZzzGachaTime zc
      (strDropLast s, e)
    else extractZzzEventTime zc
  let start1 :=
    if se.1 ≠ "" then
      if strHas se.1 (st.version_now ++ "版本") ∧ st.version_begin_time ≠ "" then
        st.version_begin_time
      else
        let p := parseContentTime se.1
        if p ≠ "" then p else start0
    else start0
  let end1 :=
    if se.2 ≠ "" then
      let p := parseContentTime se.2
      if p ≠ "" then p else end0
    else end0
  (start1, end1)

/-- `ZenlessParser._is_valid_event`. -/
def zIsValidEvent (zhTitle : String) : Bool :=
  (strHas zhTitle "活动说明" || strHas zhTitle "活动公告") &&
    !(zIgnoredKeywords.any (fun kw => strHas zhTitle kw))

/-- The version pass over one category's stubs
(`_parse_version_announcements` inner loop): on the first stub whose
cleaned zh title holds `更新说明` and `版本`, record the version number,
build the record (directly appended, no title gate) and `break`. -/
def zVersionStubs (raw : ZRaw) (lang : String) :
    List ZStub → ZState → List ZAnn → ZState × List ZAnn
  | [], st, acc => (st, acc)
  | a :: rest, st, acc =>
    let cleanZhTitle := stripTags (getZhTitle raw a)
    if strHas cleanZhTitle "更新说明" && strHas cleanZhTitle "版本" then
      let st1 :=
        match extractFloats cleanZhTitle with
        | v :: _ => { st with version_now := v }
        | [] => st
      let target := (getTargetLangAnnouncement raw a lang).getD a
      let title := stripTags target.title
      let s := timestampToDatetime a.start_time
      let e := timestampToDatetime a.end_time
      let ann : ZAnn :=
        { ann_id := a.ann_id
          title := if lang = "zh-cn" then "绝区零 " ++ st1.version_now ++ " 版本" else title
          start_time := s
          end_time := e
          bannerImage := target.banner
          event_type := "version"
          content := encStub target
          lang := lang }
      ({ st1 with version_begin_time := s }, acc ++ [ann])
    else zVersionStubs raw lang rest st acc

/-- `_parse_version_announcements` outer loop: the stub scan runs for
every category labelled `游戏公告`. -/
def zVersionItems (raw : ZRaw) (lang : String) :
    List ZItem → ZState → List ZAnn → ZState × List ZAnn
  | [], st, acc => (st, acc)
  | it :: rest, st, acc =>
    if it.type_label = "游戏公告" then
      match zVersionStubs raw lang it.list st acc with
      | (st1, acc1) => zVersionItems raw lang rest st1 acc1
    else zVersionItems raw lang rest st acc

/-- `_parse_version_announcements`. -/
def zParseVersion (raw : ZRaw) (lang : String) (st : ZState) (acc : List ZAnn) :
    ZState × List ZAnn :=
  match (zhListOf raw).data with
  | none => (st, acc)
  | some pl => zVersionItems raw lang pl.list st acc

/-- One stub of `_parse_normal_announcements`: the validity checks, the
requested-language lookup, the time extraction, and the title-uniqueness
gate. -/
def zNormalStub (raw : ZRaw) (lang : String) (a : ZStub)
    (st : ZState) (acc : List ZAnn) : ZState × List ZAnn :=
  match mapGet raw.zhContentMap a.ann_id with
  | none => (st, acc)
  | some zc =>
    let zhTitle := stripTags zc.title
    if !(zIsValidEvent zhTitle) || zc.paras.any (fun p => strHas p "累计登录7天") then
      (st, acc)
    else
      match getTargetLangAnnouncement raw a lang with
      | none => (st, acc)
      | some target =>
        let se := getTimeFromZhContent st a.start_time a.end_time zc
        let s := if se.1 = "" then timestampToDatetime a.start_time else se.1
        let e := if se.2 = "" then timestampToDatetime a.end_time else se.2
        let ann : ZAnn :=
          { ann_id := a.ann_id
            title := stripTags target.title
            start_time := s
            end_time := e
            bannerImage := target.banner
            event_type := "event"
            content := encContentOpt (mapGet raw.contentMap a.ann_id)
            lang := lang }
        addToResultIfUnique st acc ann

/-- The stub loop of `_parse_normal_announcements`. -/
def zNormalStubs (raw : ZRaw) (lang : String) :
    List ZStub → ZState → List ZAnn → ZState × List ZAnn
  | [], st, acc => (st, acc)
  | a :: rest, st, acc =>
    match zNormalStub raw lang a st acc with
    | (st1, acc1) => zNormalStubs raw lang rest st1 acc1

/-- `_parse_normal_announcements` outer loop (`type_id` 3 or 4). -/
def zNormalItems (raw : ZRaw) (lang : String) :
    List ZItem → ZState → List ZAnn → ZState × List ZAnn
  | [], st, acc => (st, acc)
  | it :: rest, st, acc =>
    if it.type_id = 3 ∨ it.type_id = 4 then
      match zNormalStubs raw lang it.list st acc with
      | (st1, acc1) => zNormalItems raw lang rest st1 acc1
    else zNormalItems raw lang rest st acc

/-- `_parse_normal_announcements`. -/
def zParseNormal (raw : ZRaw) (lang : String) (st : ZState) (acc : List ZAnn) :
    ZState × List ZAnn :=
  match (zhListOf raw).data with
  | none => (st, acc)
  | some pl => zNormalItems raw lang pl.list st acc

/-- One stub of `_parse_pic_announcements` (same as the normal pass but
over the picture maps and without the login-reward filter). -/
def zPicStubStep (raw : ZRaw) (lang : String) (a : ZPicStub)
    (st : ZState) (acc : List ZAnn) : ZState × List ZAnn :=
  match mapGet raw.zhPicContentMap a.ann_id with
  | none => (st, acc)
  | some zc =>
    let zhTitle := stripTags zc.title
    if !(zIsValidEvent zhTitle) then (st, acc)
    else
      match getTargetLangPicAnnouncement raw a lang with
      | none => (st, acc)
      | some target =>
        let se := getTimeFromZhContent st a.start_time a.end_time zc
        let s := if se.1 = "" then timestampToDatetime a.start_time else se.1
        let e := if se.2 = "" then timestampToDatetime a.end_time else se.2
        let ann : ZAnn :=
          { ann_id := a.ann_id
            title := stripTags target.title
            start_time := s
            end_time := e
            bannerImage := target.img
            event_type := "event"
            content := encContentOpt (mapGet raw.picContentMap a.ann_id)
            lang := lang }
        addToResultIfUnique st acc ann

/-- The stub loop of `_parse_pic_announcements`. -/
def zPicStubs (raw : ZRaw) (lang : String) :
    List ZPicStub → ZState → List ZAnn → ZState × List ZAnn
  | [], st, acc => (st, acc)
  | a :: rest, st, acc =>
    match zPicStubStep raw lang a st acc with
    | (st1, acc1) => zPicStubs raw lang rest st1 acc1

/-- The `type_list` loop of `_parse_pic_announcements`. -/
def zPicTypeItems (raw : ZRaw) (lang : String) :
    List ZPicTypeItem → ZState → List ZAnn → ZState × List ZAnn
  | [], st, acc => (st, acc)
  | ti :: rest, st, acc =>
    match zPicStubs raw lang ti.list st acc with
    | (st1, acc1) => zPicTypeItems raw lang rest st1 acc1

/-- The group loop of `_parse_pic_announcements`. -/
def zPicItems (raw : ZRaw) (lang : String) :
    List ZPicItem → ZState → List ZAnn → ZState × List ZAnn
  | [], st, acc => (st, acc)
  | it :: rest, st, acc =>
    match zPicTypeItems raw lang it.type_list st acc with
    | (st1, acc1) => zPicItems raw lang rest st1 acc1

/-- `_parse_pic_announcements`. -/
def zParsePic (raw : ZRaw) (lang : String) (st : ZState) (acc : List ZAnn) :
    ZState × List ZAnn :=
  match (zhListOf raw).data with
  | none => (st, acc)
  | some pl => zPicItems raw lang pl.pic_list st acc

/-- `_parse_single_gacha`: synthesize the standardized zh title from the
extracted channel and agent/engine names, else fall back to the bracket
group; non-zh keeps the target title.  Always returns a record. -/
def zSingleGacha (st : ZState) (lang : String) (a target : ZStub) (zc : ZHtml) : ZAnn :=
  let zhTitle := stripTags zc.title
  let gachaNames := zc.gachaNames.filter (fun n => n ∉ wEngineGachaNames)
  let allNames := dedupKeepFirst (zc.sAgents ++ zc.sWeapons)
  let title :=
    if lang = "zh-cn" then
      if gachaNames ≠ [] ∧ allNames ≠ [] then
        "【" ++ String.intercalate ", " gachaNames ++ "】代理人、音擎调频: " ++
          String.intercalate ", " allNames
      else
        if strHas zhTitle "限时频段" then
          "【" ++ ((firstGroup zhTitle).getD "限时频段") ++ "】限时频段"
        else zhTitle
    else stripTags target.title
  let se := getTimeFromZhContent st a.start_time a.end_time zc
  let s := if se.1 = "" then timestampToDatetime a.start_time else se.1
  let e := if se.2 = "" then timestampToDatetime a.end_time else se.2
  let banner := if target.banner = "" then zc.firstImg else target.banner
  { ann_id := a.ann_id
    title := title
    start_time := s
    end_time := e
    bannerImage := banner
    event_type := "gacha"
    content := encStub target
    lang := lang }

/-- `_parse_single_pic_gacha`. -/
def zSinglePicGacha (st : ZState) (lang : String) (a target : ZPicStub) (zc : ZHtml) : ZAnn :=
  let zhTitle := stripTags zc.title
  let gachaNames := zc.gachaNames.filter (fun n => n ∉ wEngineGachaNames)
  let allNames := dedupKeepFirst (zc.sAgents ++ zc.sWeapons)
  let title :=
    if lang = "zh-cn" then
      if gachaNames ≠ [] ∧ allNames ≠ [] then
        "【" ++ String.intercalate ", " gachaNames ++ "】代理人、音擎调频: " ++
          String.intercalate ", " allNames
      else
        if strHas zhTitle "限时频段" then
          "【" ++ ((firstGroup zhTitle).getD "限时频段") ++ "】限时频段"
        else zhTitle
    else stripTags target.title
  let se := getTimeFromZhContent st a.start_time a.end_time zc
  let s := if se.1 = "" then timestampToDatetime a.start_time else se.1
  let e := if se.2 = "" then timestampToDatetime a.end_time else se.2
  { ann_id := a.ann_id
    title := title
    start_time := s
    end_time := e
    bannerImage := target.img
    event_type := "gacha"
    content := encPicStub target
    lang := lang }

/-- The stub loop of `_parse_normal_gacha_announcements`: gacha records
are appended directly, without the title gate. -/
def zGachaStubs (raw : ZRaw) (lang : String) :
    List ZStub → ZState → List ZAnn → ZState × List ZAnn
  | [], st, acc => (st, acc)
  | a :: rest, st, acc =>
    match mapGet raw.zhContentMap a.ann_id with
    | none => zGachaStubs raw lang rest st acc
    | some zc =>
      let zhTitle := stripTags zc.title
      if !(strHas zhTitle "限时频段") && !(strHas zhTitle "调频") then
        zGachaStubs raw lang rest st acc
      else
        match getTargetLangAnnouncement raw a lang with
        | none => zGachaStubs raw lang rest st acc
        | some target =>
          zGachaStubs raw lang rest st (acc ++ [zSingleGacha st lang a target zc])

/-- `_parse_normal_gacha_announcements` outer loop. -/
def zGachaItems (raw : ZRaw) (lang : String) :
    List ZItem → ZState → List ZAnn → ZState × List ZAnn
  | [], st, acc => (st, acc)
  | it :: rest, st, acc =>
    if it.type_id = 3 ∨ it.type_id = 4 then
      match zGachaStubs raw lang it.list st acc with
      | (st1, acc1) => zGachaItems raw lang rest st1 acc1
    else zGachaItems raw lang rest st acc

/-- The stub loop of `_parse_pic_gacha_announcements`. -/
def zPicGachaStubs (raw : ZRaw) (lang : String) :
    List ZPicStub → ZState → List ZAnn → ZState × List ZAnn
  | [], st, acc => (st, acc)
  | a :: rest, st, acc =>
    match mapGet raw.zhPicContentMap a.ann_id with
    | none => zPicGachaStubs raw lang rest st acc
    | some zc =>
      let zhTitle := stripTags zc.title
      if !(strHas zhTitle "限时频段") && !(strHas zhTitle "调频") then
        zPicGachaStubs raw lang rest st acc
      else
        match getTargetLangPicAnnouncement raw a lang with
        | none => zPicGachaStubs raw lang rest st acc
        | some target =>
          zPicGachaStubs raw lang rest st (acc ++ [zSinglePicGacha st lang a target zc])

/-- The `type_list` loop of `_parse_pic_gacha_announcements`. -/
def zPicGachaTypeItems (raw : ZRaw) (lang : String) :
    List ZPicTypeItem → ZState → List ZAnn → ZState × List ZAnn
  | [], st, acc => (st, acc)
  | ti :: rest, st, acc =>
    match zPicGachaStubs raw lang ti.list st acc with
    | (st1, acc1) => zPicGachaTypeItems raw lang rest st1 acc1

/-- The group loop of `_parse_pic_gacha_announcements`. -/
def zPicGachaItems (raw : ZRaw) (lang : String) :
    List ZPicItem → ZState → List ZAnn → ZState × List ZAnn
  | [], st, acc => (st, acc)
  | it :: rest, st, acc =>
    match zPicGachaTypeItems raw lang it.type_list st acc with
    | (st1, acc1) => zPicGachaItems raw lang rest st1 acc1

/-- `_parse_gacha_announcements`: the regular-list sweep then the
picture-list sweep. -/
def zParseGacha (raw : ZRaw) (lang : String) (st : ZState) (acc : List ZAnn) :
    ZState × List ZAnn :=
  match (zhListOf raw).data with
  | none => (st, acc)
  | some pl =>
    match zGachaItems raw lang pl.list st acc with
    | (st1, acc1) =>
      match (zhListOf raw).data with
      | none => (st1, acc1)
      | some pl2 => zPicGachaItems raw lang pl2.pic_list st1 acc1

/-- `ZenlessParser.parse`: language normalization, then the four passes
threaded over the instance state. -/
def zParse (st : ZState) (raw : ZRaw) (lang0 : String) : List ZAnn × ZState :=
  let lang1 := if lang0 = "zh-Hans" then "zh-cn" else if lang0 = "zh-Hant" then "zh-tw" else lang0
  let lang := if lang1 ∈ zSupportedLanguages then lang1 else "zh-cn"
  match zParseVersion raw lang st [] with
  | (st1, acc1) =>
    match zParseNormal raw lang st1 acc1 with
    | (st2, acc2) =>
      match zParsePic raw lang st2 acc2 with
      | (st3, acc3) =>
        match zParseGacha raw lang st3 acc3 with
        | (st4, acc4) => (acc4, st4)

/-!
Concrete inputs used by the closed witness and counterexample statements.
-/

/-- A parsed entry updating the existing row with official id `"5"`. -/
def exUpd : ParsedAnn := ⟨"5", "newtitle", "c2", "b2", some 11, some 120, "event"⟩

/-- A parsed entry inserting a fresh official id. -/
def exNew : ParsedAnn := ⟨"6", "fresh", "c3", "b3", some 12, some 130, "gacha"⟩

/-- An existing stored row. -/
def exRow : AnnRow := ⟨1, "5", ("5", "old"), "old", "c", "b", some 10, some 99, "event", exUpd⟩

/-- A one-row partition with the autoincrement counter past its ids. -/
def pC1 : Partition := ⟨[exRow], 2⟩

/-- Two parsed entries carrying the same external id with different titles
(e.g. one from the event pass and one from the gacha pass). -/
def dupA : ParsedAnn := ⟨"1", "a", "", "", some 10, some 50, "event"⟩

/-- Second entry with the duplicated external id. -/
def dupB : ParsedAnn := ⟨"1", "b", "", "", some 20, some 60, "gacha"⟩

/-- A batch entry with a fresh distinct id. -/
def w8a : ParsedAnn := ⟨"2", "t2", "", "", none, none, "event"⟩

/-- Another batch entry with a fresh distinct id. -/
def w8b : ParsedAnn := ⟨"3", "t3", "", "", none, none, "event"⟩

/-- A row still active at read instant 100. -/
def rActive1 : AnnRow := ⟨1, "r1", ("r1", "t"), "t", "", "", some 30, some 150, "event", dupA⟩

/-- Another active row, started later. -/
def rActive2 : AnnRow := ⟨2, "r2", ("r2", "u"), "u", "", "", some 40, some 160, "event", dupA⟩

/-- A row whose end time has passed at read instant 100. -/
def rEnded : AnnRow := ⟨3, "r3", ("r3", "v"), "v", "", "", some 20, some 90, "event", dupA⟩

/-- A row with no end time at all. -/
def rNoEnd : AnnRow := ⟨4, "r4", ("r4", "w"), "w", "", "", some 50, none, "event", dupA⟩

/-- A partition mixing active, ended and end-less rows. -/
def pC2 : Partition := ⟨[rActive1, rActive2, rEnded, rNoEnd], 5⟩

/-- A parsed announcement whose `end_time` (50) already lies in the past
at clock 100. -/
def e3 : ParsedAnn := ⟨"7", "t", "c", "b", some 10, some 50, "event"⟩

/-- A registered (game, language) state with no refresh record, an empty
partition and a cold cache at clock 100. -/
def stC3 : St := ⟨100, true, none, none, true, ⟨[], 0⟩, none, 0, 0, 0, 0⟩

/-- A state whose per-game tables were never registered. -/
def stErr : St := ⟨0, false, none, none, false, ⟨[], 0⟩, none, 0, 0, 0, 0⟩

/-- A parsed announcement still active at clock 100. -/
def e7 : ParsedAnn := ⟨"9", "x", "c", "b", some 10, some 200, "event"⟩

/-- A fresh registered state (refreshed at the current instant). -/
def stC7 : St := ⟨100, true, some ⟨some 100, true⟩, none, true, ⟨[], 0⟩, none, 0, 0, 0, 0⟩

/-- A registered state holding stored rows (partition `pC2`). -/
def stC5 : St := ⟨100, true, some ⟨some 90, true⟩, none, true, pC2, none, 0, 0, 0, 0⟩

/-- Sample cached data. -/
def dC9 : List OutRecord := [OutRecord.fromParser e3]

/-- `last_refresh` thirteen hours before the clock. -/
def st13 : St := ⟨46800, true, some ⟨some 0, true⟩, none, true, ⟨[], 0⟩, none, 0, 0, 0, 0⟩

/-- `last_refresh` eleven hours before the clock. -/
def st11 : St := ⟨39600, true, some ⟨some 0, true⟩, none, true, ⟨[], 0⟩, none, 0, 0, 0, 0⟩

/-- Force flag set with `last_refresh` equal to the clock. -/
def stFlag : St := ⟨100, true, some ⟨some 100, true⟩, some ⟨1, 1⟩, true, ⟨[], 0⟩, none, 0, 0, 0, 0⟩

/-- A zenless version-announcement stub. -/
def vStub : ZStub := ⟨1, "1.4版本更新说明", "2030-01-01 00:00:00", "2030-02-01 00:00:00", "bn"⟩

/-- A raw bundle whose only announcement is a version announcement. -/
def zraw0 : ZRaw := ⟨⟨some ⟨[⟨"游戏公告", 1, [vStub]⟩], []⟩⟩, none, [], [], [], []⟩

/-- A zenless event-announcement stub. -/
def evStub : ZStub := ⟨5, "春日活动说明", "2030-01-01 00:00:00", "2030-02-01 00:00:00", "bn"⟩

/-- Its content body (no time markers, no table). -/
def evHtml : ZHtml := ⟨"春日活动说明", ["hello"], [], [], [], [], ""⟩

/-- A raw bundle whose only announcement is a regular event. -/
def zrawE : ZRaw := ⟨⟨some ⟨[⟨"活动公告", 3, [evStub]⟩], []⟩⟩, none, [], [(5, evHtml)], [], []⟩

/-- The record the event pass produces for `zrawE`. -/
def evAnn : ZAnn :=
  ⟨5, "春日活动说明", "2030-01-01 00:00:00", "2030-02-01 00:00:00", "bn", "event",
    encContentOpt none, "zh-cn"⟩

/-- Invariant threaded through the zenless passes: the seen-title set only
grows, every event-pass record in the accumulator has its title registered
in `seen_titles` but not in the starting set, and event-pass titles are
pairwise distinct. -/
def ZInv (s0 s : ZState) (acc : List ZAnn) : Prop :=
  s0.seen_titles ⊆ s.seen_titles ∧
  (∀ a ∈ acc, a.event_type = "event" →
    a.title ∈ s.seen_titles ∧ a.title ∉ s0.seen_titles) ∧
  ((acc.filter (fun a => a.event_type == "event")).map (·.title)).Nodup

/-!
Characterization of `storeLoop`, used by the upsert theorems.
-/

/-- Last element of the batch satisfying `pred`. -/
def lastHitP (pred : ParsedAnn → Bool) : List ParsedAnn → Option ParsedAnn
  | [] => none
  | e :: rest =>
    match lastHitP pred rest with
    | some x => some x
    | none => if pred e then some e else none

/-- Net effect of the update loop on one row: the last batch entry mapped
to this row's id wins. -/
def applyLast (m : String → Option Nat) (batch : List ParsedAnn) (r : AnnRow) : AnnRow :=
  match lastHitP (fun e => m e.ann_id == some r.id) batch with
  | some e => updateRow r e
  | none => r

/-- The new rows the loop accumulates, with their flush-order ids. -/
def newsOf (m : String → Option Nat) : List ParsedAnn → Nat → List AnnRow
  | [], _ => []
  | e :: rest, nid =>
    match m e.ann_id with
    | some _ => newsOf m rest nid
    | none => mkNewRow e nid :: newsOf m rest (nid + 1)

/-- Number of batch entries that miss the existing-id dict. -/
def countNew (m : String → Option Nat) (batch : List ParsedAnn) : Nat :=
  (batch.filter (fun e => (m e.ann_id).isNone)).length

theorem updateRow_id (r : AnnRow) (e : ParsedAnn) : (updateRow r e).id = r.id := rfl

theorem updateRow_official (r : AnnRow) (e : ParsedAnn) :
    (updateRow r e).official_id = r.official_id := rfl

theorem updateRow_uuid (r : AnnRow) (e : ParsedAnn) :
    (updateRow r e).uuidKey = r.uuidKey := rfl

theorem updateRow_absorb (r : AnnRow) (e1 e2 : ParsedAnn) :
    updateRow (updateRow r e1) e2 = updateRow r e2 := rfl

theorem updateRow_mkNewRow (e : ParsedAnn) (i : Nat) :
    updateRow (mkNewRow e i) e = mkNewRow e i := rfl

theorem lastHitP_congr {p q : ParsedAnn → Bool} :
    ∀ {b : List ParsedAnn}, (∀ e ∈ b, p e = q e) → lastHitP p b = lastHitP q b := by
  intro b
  induction b with
  | nil => intro _; rfl
  | cons e rest ih =>
    intro h
    have hrest := ih (fun x hx => h x (List.mem_cons_of_mem _ hx))
    simp only [lastHitP, hrest, h e (List.mem_cons_self _ _)]

theorem lastHitP_eq_some {pred : ParsedAnn → Bool} :
    ∀ {b : List ParsedAnn} {e : ParsedAnn},
      lastHitP pred b = some e → e ∈ b ∧ pred e = true := by
  intro b
  induction b with
  | nil => intro e h; simp [lastHitP] at h
  | cons x rest ih =>
    intro e h
    simp only [lastHitP] at h
    rcases hr : lastHitP pred rest with _ | y
    · rw [hr] at h
      by_cases hp : pred x
      · simp [hp] at h
        exact ⟨by simp [← h], by rw [← h]; exact hp⟩
      · simp [hp] at h
    · rw [hr] at h
      simp at h
      rcases ih (hr.trans (congrArg some h)) with ⟨hm, hp⟩
      exact ⟨List.mem_cons_of_mem _ hm, hp⟩

theorem lastHitP_eq_none {pred : ParsedAnn → Bool} :
    ∀ {b : List ParsedAnn}, (∀ e ∈ b, pred e = false) → lastHitP pred b = none := by
  intro b
  induction b with
  | nil => intro _; rfl
  | cons x rest ih =>
    intro h
    have hrest := ih (fun e he => h e (List.mem_cons_of_mem _ he))
    simp [lastHitP, hrest, h x (List.mem_cons_self _ _)]

theorem applyLast_nil (m : String → Option Nat) (r : AnnRow) : applyLast m [] r = r := rfl

theorem applyLast_id (m : String → Option Nat) (b : List ParsedAnn) (r : AnnRow) :
    (applyLast m b r).id = r.id := by
  unfold applyLast
  rcases lastHitP (fun e => m e.ann_id == some r.id) b with _ | e <;> rfl

theorem applyLast_official (m : String → Option Nat) (b : List ParsedAnn) (r : AnnRow) :
    (applyLast m b r).official_id = r.official_id := by
  unfold applyLast
  rcases lastHitP (fun e => m e.ann_id == some r.id) b with _ | e <;> rfl

theorem applyLast_uuid (m : String → Option Nat) (b : List ParsedAnn) (r : AnnRow) :
    (applyLast m b r).uuidKey = r.uuidKey := by
  unfold applyLast
  rcases lastHitP (fun e => m e.ann_id == some r.id) b with _ | e <;> rfl

theorem applyLast_cons_some {m : String → Option Nat} {e : ParsedAnn} {rid : Nat}
    (hm : m e.ann_id = some rid) (rest : List ParsedAnn) (r : AnnRow) :
    applyLast m rest (if r.id = rid then updateRow r e else r) = applyLast m (e :: rest) r := by
  by_cases hr : r.id = rid
  · simp only [if_pos hr]
    unfold applyLast
    simp only [updateRow_id, lastHitP]
    have hpe : (m e.ann_id == some r.id) = true := by simp [hm, hr]
    rcases hlr : lastHitP (fun x => m x.ann_id == some r.id) rest with _ | y
    · simp [hlr, hpe]
    · simp [hlr, updateRow_absorb]
  · simp only [if_neg hr]
    unfold applyLast
    simp only [lastHitP]
    have hpe : (m e.ann_id == some r.id) = false := by
      simp [hm]
      exact fun h => hr h.symm
    rcases hlr : lastHitP (fun x => m x.ann_id == some r.id) rest with _ | y <;>
      simp [hlr, hpe]

theorem applyLast_cons_none {m : String → Option Nat} {e : ParsedAnn}
    (hm : m e.ann_id = none) (rest : List ParsedAnn) (r : AnnRow) :
    applyLast m (e :: rest) r = applyLast m rest r := by
  unfold applyLast
  simp only [lastHitP]
  have hpe : (m e.ann_id == some r.id) = false := by simp [hm]
  rcases hlr : lastHitP (fun x => m x.ann_id == some r.id) rest with _ | y <;>
    simp [hlr, hpe]

theorem storeLoop_eq (m : String → Option Nat) :
    ∀ (b : List ParsedAnn) (rows news : List AnnRow) (nid : Nat),
      storeLoop m b rows news nid =
        (rows.map (applyLast m b), news ++ newsOf m b nid, nid + countNew m b) := by
  intro b
  induction b with
  | nil =>
    intro rows news nid
    have h1 : rows.map (applyLast m []) = rows := by
      have := List.map_congr_left (l := rows)
        (f := applyLast m []) (g := fun r => r) (fun r _ => applyLast_nil m r)
      simpa using this
    simp [storeLoop, newsOf, countNew, h1]
  | cons e rest ih =>
    intro rows news nid
    rcases hm : m e.ann_id with _ | rid
    · simp only [storeLoop, hm]
      rw [ih]
      have h1 : rows.map (applyLast m rest) = rows.map (applyLast m (e :: rest)) :=
        List.map_congr_left (fun r _ => (applyLast_cons_none hm rest r).symm)
      have h2 : newsOf m (e :: rest) nid = mkNewRow e nid :: newsOf m rest (nid + 1) := by
        simp [newsOf, hm]
      have h3 : countNew m (e :: rest) = countNew m rest + 1 := by
        simp [countNew, List.filter_cons, hm]
      rw [h1, h2, h3]
      simp
      omega
    · simp only [storeLoop, hm]
      rw [ih]
      have h1 : (rows.map fun r => if r.id = rid then updateRow r e else r).map (applyLast m rest)
          = rows.map (applyLast m (e :: rest)) := by
        rw [List.map_map]
        exact List.map_congr_left (fun r _ => applyLast_cons_some hm rest r)
      have h2 : newsOf m (e :: rest) nid = newsOf m rest nid := by simp [newsOf, hm]
      have h3 : countNew m (e :: rest) = countNew m rest := by
        simp [countNew, List.filter_cons, hm]
      rw [h1, h2, h3]

theorem lastRowId_isSome_iff (rows : List AnnRow) (k : String) :
    (lastRowId rows k).isSome ↔ ∃ r ∈ rows, r.official_id = k := by
  induction rows with
  | nil => simp [lastRowId]
  | cons r rs ih =>
    simp only [lastRowId]
    rcases h : lastRowId rs k with _ | i
    · rw [h] at ih
      constructor
      · intro hs
        by_cases hr : r.official_id = k
        · exact ⟨r, List.mem_cons_self _ _, hr⟩
        · simp [hr] at hs
      · rintro ⟨x, hx, ho⟩
        rcases List.mem_cons.mp hx with h1 | h1
        · subst h1; simp [ho]
        · have hfalse : (none : Option Nat).isSome = true := ih.mpr ⟨x, h1, ho⟩
          simp at hfalse
    · constructor
      · intro _
        rw [h] at ih
        rcases ih.mp (by simp) with ⟨x, hx, ho⟩
        exact ⟨x, List.mem_cons_of_mem _ hx, ho⟩
      · intro _; simp

theorem lastRowId_some_spec (rows : List AnnRow) (k : String) (i : Nat) :
    lastRowId rows k = some i → ∃ r ∈ rows, r.official_id = k ∧ r.id = i := by
  induction rows with
  | nil => intro h; simp [lastRowId] at h
  | cons r rs ih =>
    intro h
    simp only [lastRowId] at h
    rcases hr : lastRowId rs k with _ | j
    · rw [hr] at h
      by_cases ho : r.official_id = k
      · simp only [ho, if_true] at h
        exact ⟨r, List.mem_cons_self _ _, ho, by injection h⟩
      · simp [ho] at h
    · rw [hr] at h
      rcases ih (hr.trans (by injection h; simp_all)) with ⟨x, hx, h1, h2⟩
      exact ⟨x, List.mem_cons_of_mem _ hx, h1, h2⟩

theorem lastRowId_eq_none (rows : List AnnRow) (k : String)
    (h : ∀ r ∈ rows, r.official_id ≠ k) : lastRowId rows k = none := by
  rcases hl : lastRowId rows k with _ | i
  · rfl
  · rcases lastRowId_some_spec rows k i hl with ⟨r, hr, ho, _⟩
    exact absurd ho (h r hr)

theorem lastRowId_map (f : AnnRow → AnnRow) (hid : ∀ r, (f r).id = r.id)
    (hof : ∀ r, (f r).official_id = r.official_id) (rows : List AnnRow) (k : String) :
    lastRowId (rows.map f) k = lastRowId rows k := by
  induction rows with
  | nil => rfl
  | cons r rs ih =>
    simp only [List.map_cons, lastRowId, ih, hof r, hid r]

theorem lastRowId_append (xs ys : List AnnRow) (k : String) :
    lastRowId (xs ++ ys) k =
      match lastRowId ys k with
      | some i => some i
      | none => lastRowId xs k := by
  induction xs with
  | nil =>
    simp only [List.nil_append]
    rcases lastRowId ys k with _ | i <;> simp [lastRowId]
  | cons x xs ih =>
    show (match lastRowId (xs ++ ys) k with
          | some i => some i
          | none => if x.official_id = k then some x.id else none) = _
    rw [ih]
    rcases hy : lastRowId ys k with _ | i <;> rfl

theorem newsOf_mem_official (m : String → Option Nat) (b : List ParsedAnn) :
    ∀ (nid : Nat), ∀ r ∈ newsOf m b nid, m r.official_id = none := by
  induction b with
  | nil => intro nid r hr; simp [newsOf] at hr
  | cons e rest ih =>
    intro nid r hr
    rcases hm : m e.ann_id with _ | i
    · simp only [newsOf, hm] at hr
      rcases List.mem_cons.mp hr with h1 | h1
      · rw [h1]
        simpa [mkNewRow] using hm
      · exact ih (nid + 1) r h1
    · simp only [newsOf, hm] at hr
      exact ih nid r hr

theorem newsOf_ids_ge (m : String → Option Nat) (b : List ParsedAnn) :
    ∀ (nid : Nat), ∀ r ∈ newsOf m b nid, nid ≤ r.id := by
  induction b with
  | nil => intro nid r hr; simp [newsOf] at hr
  | cons e rest ih =>
    intro nid r hr
    rcases hm : m e.ann_id with _ | i
    · simp only [newsOf, hm] at hr
      rcases List.mem_cons.mp hr with h1 | h1
      · rw [h1]; simp [mkNewRow]
      · exact Nat.le_of_succ_le (ih (nid + 1) r h1)
    · simp only [newsOf, hm] at hr
      exact ih nid r hr

theorem newsOf_ids_nodup (m : String → Option Nat) (b : List ParsedAnn) :
    ∀ (nid : Nat), ((newsOf m b nid).map (·.id)).Nodup := by
  induction b with
  | nil => intro nid; simp [newsOf]
  | cons e rest ih =>
    intro nid
    rcases hm : m e.ann_id with _ | i
    · simp only [newsOf, hm, List.map_cons, List.nodup_cons]
      constructor
      · intro hmem
        rcases List.mem_map.mp hmem with ⟨r, hr, hid⟩
        have := newsOf_ids_ge m rest (nid + 1) r hr
        simp [mkNewRow] at hid
        omega
      · exact ih (nid + 1)
    · simp only [newsOf, hm]
      exact ih nid

theorem newsOf_exists (m : String → Option Nat) {b : List ParsedAnn} {e : ParsedAnn}
    (he : e ∈ b) (hm : m e.ann_id = none) :
    ∀ (nid : Nat), ∃ i, mkNewRow e i ∈ newsOf m b nid := by
  induction b with
  | nil => exact absurd he (List.not_mem_nil e)
  | cons x rest ih =>
    intro nid
    rcases List.mem_cons.mp he with h1 | h1
    · subst h1
      simp only [newsOf, hm]
      exact ⟨nid, List.mem_cons_self _ _⟩
    · rcases hx : m x.ann_id with _ | j
      · rcases ih h1 (nid + 1) with ⟨i, hi⟩
        exact ⟨i, by simp only [newsOf, hx]; exact List.mem_cons_of_mem _ hi⟩
      · rcases ih h1 nid with ⟨i, hi⟩
        exact ⟨i, by simp only [newsOf, hx]; exact hi⟩

theorem newsOf_nil_of_allSome (m : String → Option Nat) (b : List ParsedAnn)
    (h : ∀ e ∈ b, (m e.ann_id).isSome) :
    ∀ (nid : Nat), newsOf m b nid = [] := by
  induction b with
  | nil => intro nid; rfl
  | cons e rest ih =>
    intro nid
    rcases hm : m e.ann_id with _ | i
    · have := h e (List.mem_cons_self _ _)
      simp [hm] at this
    · simp only [newsOf, hm]
      exact ih (fun x hx => h x (List.mem_cons_of_mem _ hx)) nid

theorem countNew_zero_of_allSome (m : String → Option Nat) (b : List ParsedAnn)
    (h : ∀ e ∈ b, (m e.ann_id).isSome) : countNew m b = 0 := by
  unfold countNew
  have : b.filter (fun e => (m e.ann_id).isNone) = [] := by
    apply List.filter_eq_nil_iff.mpr
    intro e he
    have := h e he
    simp [Option.isNone_iff_eq_none]
    exact Option.isSome_iff_exists.mp this |>.elim (fun x hx => by simp [hx])
  simp [this]

theorem beqOption_congr {a b c d : Option Nat} (h : a = b ↔ c = d) :
    (a == b) = (c == d) := by
  by_cases h1 : a = b
  · rw [beq_iff_eq.mpr h1, beq_iff_eq.mpr (h.mp h1)]
  · rw [beq_eq_false_iff_ne.mpr h1, beq_eq_false_iff_ne.mpr (fun hc => h1 (h.mpr hc))]

theorem newsOf_lastRowId_spec (m : String → Option Nat) {k : String} :
    ∀ (b : List ParsedAnn) (nid i : Nat),
      lastRowId (newsOf m b nid) k = some i →
      ∃ e, lastHitP (fun x => (m x.ann_id).isNone && (x.ann_id == k)) b = some e ∧
        mkNewRow e i ∈ newsOf m b nid := by
  intro b
  induction b with
  | nil => intro nid i h; simp [newsOf, lastRowId] at h
  | cons e rest ih =>
    intro nid i h
    rcases hm : m e.ann_id with _ | j
    · rw [newsOf] at h ⊢
      rw [hm] at h ⊢
      rcases ht : lastRowId (newsOf m rest (nid + 1)) k with _ | i1
      · have hofk : (mkNewRow e nid).official_id = k ∧ (mkNewRow e nid).id = i := by
          have h2 : (match lastRowId (newsOf m rest (nid + 1)) k with
              | some i => some i
              | none => if (mkNewRow e nid).official_id = k
                  then some (mkNewRow e nid).id else none) = some i := h
          rw [ht] at h2
          by_cases ho : (mkNewRow e nid).official_id = k
          · simp only [ho, if_true] at h2
            exact ⟨ho, by injection h2⟩
          · simp [ho] at h2
        have hrest_none :
            lastHitP (fun x => (m x.ann_id).isNone && (x.ann_id == k)) rest = none := by
          apply lastHitP_eq_none
          intro x hx
          by_cases hxm : (m x.ann_id).isNone
          · by_cases hxk : x.ann_id = k
            · exfalso
              have hxm' : m x.ann_id = none := Option.isNone_iff_eq_none.mp hxm
              rcases newsOf_exists m hx hxm' (nid + 1) with ⟨i2, hi2⟩
              have : (lastRowId (newsOf m rest (nid + 1)) k).isSome :=
                (lastRowId_isSome_iff _ _).mpr ⟨mkNewRow x i2, hi2, by simp [mkNewRow, hxk]⟩
              rw [ht] at this
              simp at this
            · simp [hxk]
          · simp [hxm]
        refine ⟨e, ?_, ?_⟩
        · simp only [lastHitP, hrest_none]
          have hek : e.ann_id = k := by simpa [mkNewRow] using hofk.1
          simp only [hm]
          simp [hek]
        · have : nid = i := by simpa [mkNewRow] using hofk.2
          rw [← this]
          exact List.mem_cons_self _ _
      · have h2 : (match lastRowId (newsOf m rest (nid + 1)) k with
            | some i => some i
            | none => if (mkNewRow e nid).official_id = k
                then some (mkNewRow e nid).id else none) = some i := h
        rw [ht] at h2
        have hi1 : i1 = i := by injection h2
        rcases ih (nid + 1) i (hi1 ▸ ht) with ⟨e0, he0, hmem⟩
        refine ⟨e0, ?_, List.mem_cons_of_mem _ hmem⟩
        simp only [lastHitP, he0]
    · rw [newsOf] at h ⊢
      rw [hm] at h ⊢
      rcases ih nid i h with ⟨e0, he0, hmem⟩
      refine ⟨e0, ?_, hmem⟩
      simp only [lastHitP, he0]

theorem storeAnnouncements_eq (rows : List AnnRow) (nextId : Nat) (batch : List ParsedAnn) :
    storeAnnouncements ⟨rows, nextId⟩ batch =
      if ((newsOf (lastRowId rows) batch nextId).map (·.uuidKey)).Nodup ∧
          ∀ u ∈ (newsOf (lastRowId rows) batch nextId).map (·.uuidKey),
            u ∉ ((rows.map (applyLast (lastRowId rows) batch)).map (·.uuidKey)) then
        ⟨rows.map (applyLast (lastRowId rows) batch) ++ newsOf (lastRowId rows) batch nextId,
         nextId + countNew (lastRowId rows) batch⟩
      else ⟨rows, nextId⟩ := by
  unfold storeAnnouncements
  simp only [storeLoop_eq, List.nil_append]

/-- C1: upsert is idempotent — storing a parsed batch twice into any
well-formed (game, language) partition leaves exactly the state that
storing it once produces: the same rows with the same field values and
no extra duplicates. -/
theorem store_idempotent (p : Partition) (batch : List ParsedAnn) (hWF : p.WF) :
    storeAnnouncements (storeAnnouncements p batch) batch = storeAnnouncements p batch := by
  obtain ⟨rows0, nid0⟩ := p
  obtain ⟨hnodup, hlt⟩ := hWF
  by_cases hc : ((newsOf (lastRowId rows0) batch nid0).map (·.uuidKey)).Nodup ∧
      ∀ u ∈ (newsOf (lastRowId rows0) batch nid0).map (·.uuidKey),
        u ∉ ((rows0.map (applyLast (lastRowId rows0) batch)).map (·.uuidKey))
  · rw [storeAnnouncements_eq rows0 nid0 batch, if_pos hc]
    set m := lastRowId rows0 with hm_def
    set rows1 := rows0.map (applyLast m batch) with hrows1_def
    set news1 := newsOf m batch nid0 with hnews1_def
    set nid1 := nid0 + countNew m batch with hnid1_def
    set m1 := lastRowId (rows1 ++ news1) with hm1_def
    have hrows1_ids : rows1.map (·.id) = rows0.map (·.id) := by
      rw [hrows1_def, List.map_map]
      exact List.map_congr_left (fun r _ => applyLast_id m batch r)
    have hq_nodup : ((rows1 ++ news1).map (·.id)).Nodup := by
      rw [List.map_append]
      refine List.Nodup.append ?_ ?_ ?_
      · rw [hrows1_ids]; exact hnodup
      · exact newsOf_ids_nodup m batch nid0
      · intro a ha hb
        rcases List.mem_map.mp ((hrows1_ids ▸ ha)) with ⟨r, hr, hrid⟩
        rcases List.mem_map.mp hb with ⟨r2, hr2, hr2id⟩
        have h1 : a < nid0 := hrid ▸ hlt r hr
        have h2 : nid0 ≤ a := hr2id ▸ newsOf_ids_ge m batch nid0 r2 hr2
        omega
    have hall : ∀ e ∈ batch, (m1 e.ann_id).isSome := by
      intro e he
      rcases hme : m e.ann_id with _ | j
      · rcases newsOf_exists m he hme nid0 with ⟨i, hi⟩
        exact (lastRowId_isSome_iff _ _).mpr
          ⟨mkNewRow e i, List.mem_append_right _ hi, rfl⟩
      · rcases lastRowId_some_spec rows0 e.ann_id j hme with ⟨r0, hr0, hof0, _⟩
        refine (lastRowId_isSome_iff _ _).mpr
          ⟨applyLast m batch r0, List.mem_append_left _ (List.mem_map_of_mem _ hr0), ?_⟩
        rw [applyLast_official]; exact hof0
    have hnews2 : newsOf m1 batch nid1 = [] := newsOf_nil_of_allSome m1 batch hall nid1
    have hcount2 : countNew m1 batch = 0 := countNew_zero_of_allSome m1 batch hall
    have hfix : ∀ r ∈ rows1 ++ news1, applyLast m1 batch r = r := by
      intro r hr
      unfold applyLast
      rcases hLH : lastHitP (fun x => m1 x.ann_id == some r.id) batch with _ | e
      · rfl
      · rcases lastHitP_eq_some hLH with ⟨heb, hpe⟩
        show updateRow r e = r
        have hm1e : m1 e.ann_id = some r.id := by
          simpa [beq_iff_eq] using hpe
        rcases lastRowId_some_spec (rows1 ++ news1) e.ann_id r.id hm1e with
          ⟨r', hr', hof', hid'⟩
        have hrr : r' = r := List.inj_on_of_nodup_map hq_nodup hr' hr hid'
        have hko : r.official_id = e.ann_id := hrr ▸ hof'
        rcases List.mem_append.mp hr with hrA | hrB
        · -- the designated row sits among the updated existing rows
          rcases List.mem_map.mp hrA with ⟨r0, hr0, hr0eq⟩
          have hr0of : r0.official_id = e.ann_id := by
            rw [← hko, ← hr0eq, applyLast_official]
          have hr0id : r0.id = r.id := by rw [← hr0eq, applyLast_id]
          have hmk : (m e.ann_id).isSome :=
            (lastRowId_isSome_iff _ _).mpr ⟨r0, hr0, hr0of⟩
          have hnews_k : lastRowId news1 e.ann_id = none := by
            apply lastRowId_eq_none
            intro x hx hxo
            have hxm := newsOf_mem_official m batch nid0 x hx
            rw [hxo] at hxm
            rw [hxm] at hmk
            simp at hmk
          have hm1k : m1 e.ann_id = m e.ann_id := by
            rw [hm1_def, lastRowId_append, hnews_k]
            rw [hrows1_def, lastRowId_map (applyLast m batch)
              (applyLast_id m batch) (applyLast_official m batch)]
          have hmk_eq : m e.ann_id = some r.id := by rw [← hm1k]; exact hm1e
          have hpredeq : ∀ x ∈ batch,
              (m1 x.ann_id == some r.id) = (m x.ann_id == some r0.id) := by
            intro x hx
            apply beqOption_congr
            constructor
            · intro hx1
              rcases lastRowId_some_spec (rows1 ++ news1) x.ann_id r.id hx1 with
                ⟨r4, hr4, ho4, hi4⟩
              have hr4r : r4 = r := List.inj_on_of_nodup_map hq_nodup hr4 hr hi4
              have hxk : x.ann_id = e.ann_id := by rw [← ho4, hr4r]; exact hko
              rw [hxk, hmk_eq, hr0id]
            · intro hx2
              rcases lastRowId_some_spec rows0 x.ann_id r0.id hx2 with
                ⟨r3, hr3, ho3, hi3⟩
              have hr3r0 : r3 = r0 := List.inj_on_of_nodup_map hnodup hr3 hr0 hi3
              have hxk : x.ann_id = e.ann_id := by rw [← ho3, hr3r0, hr0of]
              rw [hxk, hm1k, hmk_eq]
          have hLH0 : lastHitP (fun x => m x.ann_id == some r0.id) batch = some e := by
            rw [← lastHitP_congr hpredeq]; exact hLH
          have hr_eq : r = updateRow r0 e := by
            rw [← hr0eq]
            unfold applyLast
            rw [hLH0]
          rw [hr_eq, updateRow_absorb]
        · -- the designated row is one of the freshly inserted ones
          have hmk_none : m e.ann_id = none := by
            have := newsOf_mem_official m batch nid0 r hrB
            rwa [hko] at this
          have hrows1_k : lastRowId rows1 e.ann_id = none := by
            rw [hrows1_def, lastRowId_map (applyLast m batch)
              (applyLast_id m batch) (applyLast_official m batch)]
            apply lastRowId_eq_none
            intro x hx hxo
            have : (m e.ann_id).isSome := (lastRowId_isSome_iff _ _).mpr ⟨x, hx, hxo⟩
            rw [hmk_none] at this
            simp at this
          have hnews_some : lastRowId news1 e.ann_id = some r.id := by
            have happ := lastRowId_append rows1 news1 e.ann_id
            rw [← hm1_def] at happ
            rcases hn : lastRowId news1 e.ann_id with _ | j
            · rw [hn] at happ
              simp only [hrows1_k] at happ
              rw [happ] at hm1e
              simp at hm1e
            · rw [hn] at happ
              simp only at happ
              rw [happ] at hm1e
              rw [← hm1e]
          rcases newsOf_lastRowId_spec m batch nid0 r.id hnews_some with ⟨e0, hlast0, hmem0⟩
          have hmkmem : mkNewRow e0 r.id ∈ rows1 ++ news1 := List.mem_append_right _ hmem0
          have hre0 : r = mkNewRow e0 r.id :=
            List.inj_on_of_nodup_map hq_nodup hr hmkmem rfl
          have hpredeq : ∀ x ∈ batch,
              (m1 x.ann_id == some r.id) =
                ((m x.ann_id).isNone && (x.ann_id == e.ann_id)) := by
            intro x hx
            by_cases hxk : x.ann_id = e.ann_id
            · rw [hxk]
              have hL : (m1 e.ann_id == some r.id) = true := beq_iff_eq.mpr hm1e
              rw [hL]
              simp [hmk_none]
            · have hL : (m1 x.ann_id == some r.id) = false := by
                apply beq_eq_false_iff_ne.mpr
                intro hcon
                rcases lastRowId_some_spec (rows1 ++ news1) x.ann_id r.id hcon with
                  ⟨r4, hr4, ho4, hi4⟩
                have hr4r : r4 = r := List.inj_on_of_nodup_map hq_nodup hr4 hr hi4
                exact hxk (by rw [← ho4, hr4r, hko])
              rw [hL]
              simp [hxk]
          have hLH2 : lastHitP (fun x => (m x.ann_id).isNone && (x.ann_id == e.ann_id))
              batch = some e := by
            rw [← lastHitP_congr hpredeq]; exact hLH
          have hee : e0 = e := by
            rw [hlast0] at hLH2
            injection hLH2
          rw [hre0, ← hee, updateRow_mkNewRow]
    rw [storeAnnouncements_eq (rows1 ++ news1) nid1 batch]
    rw [← hm1_def, hnews2, hcount2]
    have hmapfix : (rows1 ++ news1).map (applyLast m1 batch) = rows1 ++ news1 := by
      have h1 := List.map_congr_left (l := rows1 ++ news1)
        (f := applyLast m1 batch) (g := id) (fun r hr => hfix r hr)
      simpa using h1
    rw [hmapfix]
    simp
  · rw [storeAnnouncements_eq rows0 nid0 batch, if_neg hc,
      storeAnnouncements_eq rows0 nid0 batch, if_neg hc]

/-- Witness for C1 at a concrete partition and batch (one update, one
insert), with the well-formedness hypothesis discharged by computation. -/
theorem store_idempotent_witness :
    storeAnnouncements (storeAnnouncements pC1 [exUpd, exNew]) [exUpd, exNew] =
      storeAnnouncements pC1 [exUpd, exNew] :=
  store_idempotent pC1 [exUpd, exNew] ⟨by decide, by decide⟩

theorem newsOf_officials (m : String → Option Nat) (b : List ParsedAnn) :
    ∀ (nid : Nat), (newsOf m b nid).map (·.official_id) =
      (b.filter (fun e => (m e.ann_id).isNone)).map (·.ann_id) := by
  induction b with
  | nil => intro nid; rfl
  | cons e rest ih =>
    intro nid
    rcases hm : m e.ann_id with _ | j
    · simp only [newsOf, hm, List.map_cons, List.filter_cons]
      simp [ih (nid + 1), mkNewRow]
    · simp only [newsOf, hm, List.filter_cons]
      simp [ih nid]

/-- C8 counterexample: a single parsed batch whose two entries carry the
same external id, stored into an empty partition, yields two rows sharing
`official_id = "1"` — the uniqueness invariant does not survive the store
operation on such a batch. -/
theorem store_duplicate_batch_breaks_uniqueness :
    ((storeAnnouncements ⟨[], 0⟩ [dupA, dupB]).rows.map (·.official_id)) = ["1", "1"]
    ∧ ¬ ((storeAnnouncements ⟨[], 0⟩ [dupA, dupB]).rows.map (·.official_id)).Nodup := by
  constructor
  · decide
  · decide

/-- C8 (amended): the upsert preserves uniqueness of `official_id` within
a partition provided the incoming batch itself carries pairwise-distinct
external ids; a batch with an in-batch duplicate inserts duplicate rows
instead (see the counterexample). -/
theorem store_preserves_unique_official_ids (p : Partition) (batch : List ParsedAnn)
    (hp : (p.rows.map (·.official_id)).Nodup)
    (hb : (batch.map (·.ann_id)).Nodup) :
    ((storeAnnouncements p batch).rows.map (·.official_id)).Nodup := by
  obtain ⟨rows0, nid0⟩ := p
  rw [storeAnnouncements_eq]
  split_ifs with hc
  · rw [List.map_append]
    have hrows1 : (rows0.map (applyLast (lastRowId rows0) batch)).map (·.official_id)
        = rows0.map (·.official_id) := by
      rw [List.map_map]
      exact List.map_congr_left (fun r _ => applyLast_official _ batch r)
    refine List.Nodup.append ?_ ?_ ?_
    · rw [hrows1]; exact hp
    · rw [newsOf_officials]
      refine List.Nodup.sublist (List.Sublist.map _ (List.filter_sublist batch)) hb
    · intro a ha hb2
      rw [hrows1] at ha
      rw [newsOf_officials] at hb2
      rcases List.mem_map.mp ha with ⟨r, hr, hrid⟩
      rcases List.mem_map.mp hb2 with ⟨x, hx, hxid⟩
      have hxf := List.mem_filter.mp hx
      have hnone : lastRowId rows0 x.ann_id = none :=
        Option.isNone_iff_eq_none.mp hxf.2
      have : (lastRowId rows0 x.ann_id).isSome :=
        (lastRowId_isSome_iff _ _).mpr ⟨r, hr, by rw [hrid, hxid]⟩
      rw [hnone] at this
      simp at this
  · exact hp

/-- Witness for the amended C8 at a concrete partition and duplicate-free
batch. -/
theorem store_preserves_unique_official_ids_witness :
    ((storeAnnouncements pC1 [w8a, w8b]).rows.map (·.official_id)).Nodup :=
  store_preserves_unique_official_ids pC1 [w8a, w8b] (by decide) (by decide)

/-- C2: `_get_from_database` returns exactly the rows whose `end_time` is
strictly later than the read instant — rows with a past `end_time` and
rows with no `end_time` are excluded — ordered by `start_time`
descending. -/
theorem readActive_spec (p : Partition) (now : Nat) :
    (∀ r ∈ p.rows, ∀ t, r.end_time = some t → now < t →
        formatRow r ∈ getFromDatabase p now)
    ∧ (∀ v ∈ getFromDatabase p now,
        ∃ r, r ∈ p.rows ∧ formatRow r = v ∧ ∃ t, r.end_time = some t ∧ now < t)
    ∧ List.Sorted viewDescLe (getFromDatabase p now) := by
  refine ⟨?_, ?_, ?_⟩
  · intro r hr t ht hlt
    unfold getFromDatabase
    apply List.mem_map_of_mem
    rw [List.mem_insertionSort, List.mem_filter]
    refine ⟨hr, ?_⟩
    unfold activeAt
    rw [ht]
    simpa using hlt
  · intro v hv
    unfold getFromDatabase at hv
    rcases List.mem_map.mp hv with ⟨r, hr, hfv⟩
    rw [List.mem_insertionSort, List.mem_filter] at hr
    refine ⟨r, hr.1, hfv, ?_⟩
    have hact := hr.2
    unfold activeAt at hact
    rcases he : r.end_time with _ | t
    · rw [he] at hact; simp at hact
    · rw [he] at hact
      simp at hact
      exact ⟨t, rfl, hact⟩
  · unfold getFromDatabase
    have hs : List.Sorted rowDescLe
        (List.insertionSort rowDescLe (p.rows.filter (activeAt now))) :=
      List.sorted_insertionSort rowDescLe _
    exact List.Pairwise.map formatRow (fun a b h => h) hs

/-- Witness for C2: at the concrete partition `pC2` and read instant 100,
an active row's projection is in the result, and the result is sorted
descending.  (`getFromDatabase pC2 100` computes to the two active rows,
latest start first.) -/
theorem readActive_spec_witness :
    formatRow rActive1 ∈ getFromDatabase pC2 100
    ∧ List.Sorted viewDescLe (getFromDatabase pC2 100)
    ∧ getFromDatabase pC2 100 = [formatRow rActive2, formatRow rActive1] :=
  ⟨(readActive_spec pC2 100).1 rActive1 (by decide) 150 rfl (by decide),
   (readActive_spec pC2 100).2.2,
   by decide⟩

/-- C9: the cache slot written at instant `T` is returned by any read
strictly before `T + 1h` and is a miss at or after `T + 1h`; the expired
entry is still present until the read itself removes it (lazy expiry on
read, no sweep). -/
theorem cache_ttl_spec (st : St) (d : List OutRecord) (t : Nat) :
    (t < cacheTtl →
      (getFromCache { setToCache st d with now := st.now + t }).1 = some d)
    ∧ (cacheTtl ≤ t →
      (getFromCache { setToCache st d with now := st.now + t }).1 = none
      ∧ (getFromCache { setToCache st d with now := st.now + t }).2.cache = none
      ∧ { setToCache st d with now := st.now + t }.cache = some (d, st.now + cacheTtl)) := by
  unfold setToCache getFromCache
  constructor
  · intro hlt
    simp only
    rw [if_neg (by omega)]
  · intro hge
    refine ⟨?_, ?_, rfl⟩
    · simp only
      rw [if_pos (by omega)]
    · simp only
      rw [if_pos (by omega)]

/-- Witness for C9 at a concrete state, 59 minutes and 61 minutes after
the write. -/
theorem cache_ttl_spec_witness :
    (getFromCache { setToCache stC3 dC9 with now := stC3.now + 3540 }).1 = some dC9
    ∧ (getFromCache { setToCache stC3 dC9 with now := stC3.now + 3660 }).1 = none
    ∧ (getFromCache { setToCache stC3 dC9 with now := stC3.now + 3660 }).2.cache = none :=
  ⟨(cache_ttl_spec stC3 dC9 3540).1 (by decide),
   ((cache_ttl_spec stC3 dC9 3660).2 (by decide)).1,
   ((cache_ttl_spec stC3 dC9 3660).2 (by decide)).2.1⟩

/-- C4: with the refresh-record table registered, `_should_refresh`
answers `true` exactly when no record exists, or its `last_refresh` is
unset, or more than twelve hours have elapsed, or the game's force flag
is set; and whenever the flag is observed set (record present with a set
`last_refresh`), `_should_refresh` itself clears it — before, and
regardless of, any ensuing fetch. -/
theorem shouldRefresh_spec (st : St) (h : st.refreshTableExists = true) :
    ((shouldRefresh st).1 = true ↔
      st.refreshRec = none
      ∨ (∃ rec0, st.refreshRec = some rec0 ∧ rec0.last_refresh = none)
      ∨ (∃ rec0 lr, st.refreshRec = some rec0 ∧ rec0.last_refresh = some lr ∧
          twelveHours < st.now - lr)
      ∨ (∃ g, st.gameRow = some g ∧ g.force_refresh = 1))
    ∧ (∀ rec0 lr g, st.refreshRec = some rec0 → rec0.last_refresh = some lr →
        st.gameRow = some g → g.force_refresh = 1 →
        (shouldRefresh st).2 = { st with gameRow := some { g with force_refresh := 0 } }) := by
  unfold shouldRefresh
  rw [h]
  simp only [Bool.true_eq_false, if_false]
  constructor
  · rcases hrec : st.refreshRec with _ | rec0
    · simp
    · rcases hlr : rec0.last_refresh with _ | lr
      · simp [hlr]
      · rcases hg : st.gameRow with _ | g
        · simp only [hlr, hg]
          constructor
          · intro ht
            refine Or.inr (Or.inr (Or.inl ⟨rec0, lr, rfl, hlr, ?_⟩))
            simpa using ht
          · intro hor
            rcases hor with h1 | h2 | h3 | h4
            · exact absurd h1 (by simp)
            · rcases h2 with ⟨r1, hr1, hr2⟩
              injection hr1 with hr1
              rw [← hr1] at hr2
              rw [hlr] at hr2
              exact absurd hr2 (by simp)
            · rcases h3 with ⟨r1, l1, hr1, hr2, hr3⟩
              injection hr1 with hr1
              rw [← hr1, hlr] at hr2
              injection hr2 with hr2
              rw [← hr2] at hr3
              simpa using hr3
            · rcases h4 with ⟨g, hg1, _⟩
              exact absurd hg1 (by simp)
        · by_cases hf : g.force_refresh = 1
          · simp [hlr, hg, hf]
          · simp only [hlr, hg, hf, if_false]
            constructor
            · intro ht
              refine Or.inr (Or.inr (Or.inl ⟨rec0, lr, rfl, hlr, ?_⟩))
              simpa using ht
            · intro hor
              rcases hor with h1 | h2 | h3 | h4
              · exact absurd h1 (by simp)
              · rcases h2 with ⟨r1, hr1, hr2⟩
                injection hr1 with hr1
                rw [← hr1, hlr] at hr2
                exact absurd hr2 (by simp)
              · rcases h3 with ⟨r1, l1, hr1, hr2, hr3⟩
                injection hr1 with hr1
                rw [← hr1, hlr] at hr2
                injection hr2 with hr2
                rw [← hr2] at hr3
                simpa using hr3
              · rcases h4 with ⟨g1, hg1, hg2⟩
                injection hg1 with hg1
                rw [← hg1] at hg2
                exact absurd hg2 hf
  · intro rec0 lr g hrec hlr hg hf
    simp [hrec, hlr, hg, hf]

/-- Witness for C4: thirteen hours elapsed is stale, eleven hours is
fresh, and an observed force flag makes the state stale and is cleared by
the check itself. -/
theorem shouldRefresh_spec_witness :
    (shouldRefresh st13).1 = true
    ∧ (shouldRefresh st11).1 = false
    ∧ (shouldRefresh stFlag).1 = true
    ∧ (shouldRefresh stFlag).2.gameRow = some ⟨1, 0⟩ := by
  refine ⟨?_, ?_, ?_, ?_⟩
  · exact (shouldRefresh_spec st13 rfl).1.mpr
      (Or.inr (Or.inr (Or.inl ⟨⟨some 0, true⟩, 0, rfl, rfl, by decide⟩)))
  · rcases hb : (shouldRefresh st11).1
    · rfl
    · exfalso
      have hor := (shouldRefresh_spec st11 rfl).1.mp hb
      have h0 : st11.refreshRec = some ⟨some 0, true⟩ := rfl
      have hg0 : st11.gameRow = none := rfl
      rcases hor with h1 | ⟨r, hr, hl⟩ | ⟨r, l, hr, hl, hx⟩ | ⟨g, hg, _⟩
      · rw [h0] at h1
        exact Option.noConfusion h1
      · rw [h0] at hr
        injection hr with hr
        rw [← hr] at hl
        exact Option.noConfusion hl
      · rw [h0] at hr
        injection hr with hr
        rw [← hr] at hl
        injection hl with hl
        rw [← hl] at hx
        exact absurd hx (by decide)
      · rw [hg0] at hg
        exact Option.noConfusion hg
  · exact (shouldRefresh_spec stFlag rfl).1.mpr
      (Or.inr (Or.inr (Or.inr ⟨⟨1, 1⟩, rfl, rfl⟩)))
  · rw [(shouldRefresh_spec stFlag rfl).2 ⟨some 100, true⟩ 100 ⟨1, 1⟩ rfl rfl rfl rfl]

/-- C3: evaluation at a failing input.  From a cold cache and a stale
state, a refresh cycle that fetches, parses and stores successfully makes
`get_announcements` return the parsed batch itself (parser-shaped
records, here one whose `end_time` already passed), NOT the Store's
active read-back — which at the post-call state is empty.  Steps 5-6 of
the documented flow are bypassed on the success path. -/
theorem getAnnouncements_success_returns_parsed :
    okValue (getAnnouncements "genshin" [e3] false stC3).1 = some [OutRecord.fromParser e3]
    ∧ (getFromDatabase (getAnnouncements "genshin" [e3] false stC3).2.part
        (getAnnouncements "genshin" [e3] false stC3).2.now).map OutRecord.fromDb = [] := by
  constructor
  · decide
  · decide

/-- C6 counterexample: for a (game, language) pair whose announcement
table was never registered, `get_announcements` does not return a list —
the `ValueError` of `get_announcement_model`, raised inside
`_get_from_database` outside any `try`, escapes to the caller. -/
theorem getAnnouncements_unregistered_raises :
    okValue (getAnnouncements "nonexistent" [] false stErr).1 = none := by
  decide

/-- C7 counterexample: two forced `get_announcements` calls for the same
(game, language) key — the serialized schedule of two concurrent callers —
drive the outbound fetch counter to 2, not to the single fetch cycle the
claim demands; the code has no per-key lock or single-flight state that
any other interleaving could consult. -/
theorem duplicate_forced_fetch_counterexample :
    (getAnnouncements "genshin" [e7] true
      (getAnnouncements "genshin" [e7] true stC7).2).2.fetchCount = 2
    ∧ (2 : Nat) ≠ 1 := by
  constructor
  · decide
  · decide
/-- C5: when the fetch-parse step of a needed refresh yields nothing (the
fetch helpers catch failures and return the empty list), the refresh
record is left untouched — staleness is preserved for the next call — and
the caller receives the Store's current active read-back. -/
theorem getAnnouncements_fetch_failure (game : String) (st0 : St) (force : Bool)
    (hTab : st0.annTableExists = true) (hKnown : knownGame game = true)
    (hCache : st0.cache = none)
    (hNeed : force = true ∨ (shouldRefresh { st0 with misses := st0.misses + 1 }).1 = true) :
    okValue (getAnnouncements game [] force st0).1 =
      some ((getFromDatabase st0.part st0.now).map OutRecord.fromDb)
    ∧ (getAnnouncements game [] force st0).2.refreshRec = st0.refreshRec := by
  obtain ⟨n0, rt0, rr0, gr0, at0, p0, c0, h0, mi0, ex0, fc0⟩ := st0
  dsimp only at hTab hCache hNeed ⊢
  subst hTab
  subst hCache
  cases force
  · rcases hNeed with h1 | hsr
    · exact absurd h1 (by simp)
    · rcases rt0 with _ | _
      · simp [getAnnouncements, getFromCache, shouldRefresh, refreshStep,
          databaseStep, hKnown, okValue, setToCache]
        split_ifs <;> simp
      · rcases rr0 with _ | rec0
        · simp [getAnnouncements, getFromCache, shouldRefresh, refreshStep,
            databaseStep, hKnown, okValue, setToCache]
          split_ifs <;> simp
        · obtain ⟨lrf, suc⟩ := rec0
          rcases lrf with _ | lr
          · simp [getAnnouncements, getFromCache, shouldRefresh, refreshStep,
              databaseStep, hKnown, okValue, setToCache]
            split_ifs <;> simp
          · rcases gr0 with _ | g
            · simp only [shouldRefresh] at hsr
              simp [getAnnouncements, getFromCache, shouldRefresh, refreshStep,
                databaseStep, hKnown, okValue, setToCache, hsr]
              split_ifs <;> simp
            · by_cases hf : g.force_refresh = 1
              · simp [getAnnouncements, getFromCache, shouldRefresh, refreshStep,
                  databaseStep, hKnown, okValue, setToCache, hf]
                split_ifs <;> simp
              · simp [shouldRefresh, hf] at hsr
                simp [getAnnouncements, getFromCache, shouldRefresh, refreshStep,
                  databaseStep, hKnown, okValue, setToCache, hf, hsr]
                split_ifs <;> simp
  · simp [getAnnouncements, getFromCache, clearCacheKey, refreshStep,
      databaseStep, hKnown, okValue, setToCache]
    split_ifs <;> simp

/-- Witness for C5: a forced refresh whose fetch yields nothing returns
the active read-back of the stored partition and leaves the refresh
record untouched. -/
theorem getAnnouncements_fetch_failure_witness :
    okValue (getAnnouncements "genshin" [] true stC5).1 =
      some ((getFromDatabase stC5.part stC5.now).map OutRecord.fromDb)
    ∧ (getAnnouncements "genshin" [] true stC5).2.refreshRec = stC5.refreshRec :=
  getAnnouncements_fetch_failure "genshin" stC5 true rfl rfl rfl (Or.inl rfl)

/-- C6 (amended): for every (game, language) pair whose announcement
table is registered, `get_announcements` never lets an exception escape:
whatever the game id, the fetch outcome and the force flag, it returns a
list (possibly empty) — fetch and store failures are swallowed and
degrade to existing data.  For an unregistered pair the
`get_announcement_model` `ValueError` escapes (see the counterexample). -/
theorem getAnnouncements_registered_total (game : String) (fetchRes : List ParsedAnn)
    (force : Bool) (st0 : St) (hTab : st0.annTableExists = true) :
    ∃ l, (getAnnouncements game fetchRes force st0).1 = Except.ok l := by
  obtain ⟨n0, rt0, rr0, gr0, at0, p0, c0, h0, mi0, ex0, fc0⟩ := st0
  dsimp only at hTab
  subst hTab
  cases force
  · rcases c0 with _ | entry
    · rcases rt0 with _ | _
      · by_cases hk : knownGame game = true
        · rcases hf : fetchRes with _ | ⟨a, rest⟩ <;>
            simp [getAnnouncements, getFromCache, shouldRefresh, refreshStep,
              databaseStep, hk, setToCache, updateRefreshTime] <;>
            split_ifs <;> simp
        · simp [getAnnouncements, getFromCache, shouldRefresh, refreshStep,
            databaseStep, hk, setToCache] <;> split_ifs <;> simp
      · rcases rr0 with _ | ⟨lrf, suc⟩
        · by_cases hk : knownGame game = true
          · rcases hf : fetchRes with _ | ⟨a, rest⟩ <;>
              simp [getAnnouncements, getFromCache, shouldRefresh, refreshStep,
                databaseStep, hk, setToCache, updateRefreshTime] <;>
              split_ifs <;> simp
          · simp [getAnnouncements, getFromCache, shouldRefresh, refreshStep,
              databaseStep, hk, setToCache] <;> split_ifs <;> simp
        · rcases lrf with _ | lr
          · by_cases hk : knownGame game = true
            · rcases hf : fetchRes with _ | ⟨a, rest⟩ <;>
                simp [getAnnouncements, getFromCache, shouldRefresh, refreshStep,
                  databaseStep, hk, setToCache, updateRefreshTime] <;>
                split_ifs <;> simp
            · simp [getAnnouncements, getFromCache, shouldRefresh, refreshStep,
                databaseStep, hk, setToCache] <;> split_ifs <;> simp
          · rcases gr0 with _ | g
            · by_cases hk : knownGame game = true
              · by_cases hel : twelveHours < n0 - lr
                · rcases hf : fetchRes with _ | ⟨a, rest⟩ <;>
                    simp [getAnnouncements, getFromCache, shouldRefresh, refreshStep,
                      databaseStep, hk, hel, setToCache, updateRefreshTime] <;>
                    split_ifs <;> simp
                · simp [getAnnouncements, getFromCache, shouldRefresh, refreshStep,
                    databaseStep, hk, hel, setToCache] <;> split_ifs <;> simp
              · by_cases hel : twelveHours < n0 - lr <;>
                  simp [getAnnouncements, getFromCache, shouldRefresh, refreshStep,
                    databaseStep, hk, hel, setToCache] <;> split_ifs <;> simp
            · by_cases hflag : g.force_refresh = 1
              · by_cases hk : knownGame game = true
                · rcases hf : fetchRes with _ | ⟨a, rest⟩ <;>
                    simp [getAnnouncements, getFromCache, shouldRefresh, refreshStep,
                      databaseStep, hk, hflag, setToCache, updateRefreshTime] <;>
                    split_ifs <;> simp
                · simp [getAnnouncements, getFromCache, shouldRefresh, refreshStep,
                    databaseStep, hk, hflag, setToCache] <;> split_ifs <;> simp
              · by_cases hk : knownGame game = true
                · by_cases hel : twelveHours < n0 - lr
                  · rcases hf : fetchRes with _ | ⟨a, rest⟩ <;>
                      simp [getAnnouncements, getFromCache, shouldRefresh, refreshStep,
                        databaseStep, hk, hflag, hel, setToCache, updateRefreshTime] <;>
                      split_ifs <;> simp
                  · simp [getAnnouncements, getFromCache, shouldRefresh, refreshStep,
                      databaseStep, hk, hflag, hel, setToCache] <;> split_ifs <;> simp
                · by_cases hel : twelveHours < n0 - lr <;>
                    simp [getAnnouncements, getFromCache, shouldRefresh, refreshStep,
                      databaseStep, hk, hflag, hel, setToCache] <;> split_ifs <;> simp
    · obtain ⟨d, exp⟩ := entry
      by_cases hexp : exp ≤ n0
      · -- the entry is expired: the read pops it and the flow continues
        by_cases hk : knownGame game = true
        all_goals
          rcases rt0 with _ | _
          all_goals rcases rr0 with _ | ⟨lrf, suc⟩
          all_goals try rcases lrf with _ | lr
          all_goals try rcases gr0 with _ | g
          all_goals try by_cases hflag : g.force_refresh = 1
          all_goals try by_cases hel : twelveHours < n0 - lr
          all_goals rcases hf : fetchRes with _ | ⟨a, rest⟩
          all_goals simp [getAnnouncements, getFromCache, shouldRefresh, refreshStep,
            databaseStep, hk, hexp, setToCache, updateRefreshTime, *]
          all_goals split_ifs <;> simp
      · simp [getAnnouncements, getFromCache, hexp]
  · by_cases hk : knownGame game = true
    · rcases hf : fetchRes with _ | ⟨a, rest⟩ <;>
        simp [getAnnouncements, getFromCache, clearCacheKey, refreshStep,
          databaseStep, hk, setToCache, updateRefreshTime] <;>
        split_ifs <;> simp
    · simp [getAnnouncements, getFromCache, clearCacheKey, refreshStep,
        databaseStep, hk, setToCache] <;> split_ifs <;> simp

/-- Witness for the amended C6 at a registered concrete state. -/
theorem getAnnouncements_registered_total_witness :
    ∃ l, (getAnnouncements "genshin" [] false stC5).1 = Except.ok l :=
  getAnnouncements_registered_total "genshin" [] false stC5 rfl

/-- C7 (amended): the code has no per-key lock or single-flight
coordination — every forced call for a known game performs its own
outbound fetch cycle, so n forced callers produce n fetches rather than
one (two concurrent forced calls are refuted in the counterexample). -/
theorem forced_call_always_fetches (game : String) (fetchRes : List ParsedAnn)
    (st0 : St) (hKnown : knownGame game = true) :
    (getAnnouncements game fetchRes true st0).2.fetchCount = st0.fetchCount + 1 := by
  obtain ⟨n0, rt0, rr0, gr0, at0, p0, c0, h0, mi0, ex0, fc0⟩ := st0
  rcases hf : fetchRes with _ | ⟨a, rest⟩ <;>
    rcases at0 with _ | _ <;>
    simp [getAnnouncements, getFromCache, clearCacheKey, refreshStep,
      databaseStep, hKnown, setToCache, updateRefreshTime] <;>
    split_ifs <;> simp

/-- Witness for the amended C7 at a concrete state: the forced call's
fetch counter advances by one. -/
theorem forced_call_always_fetches_witness :
    (getAnnouncements "genshin" [e7] true stC7).2.fetchCount = stC7.fetchCount + 1 :=
  forced_call_always_fetches "genshin" [e7] stC7 rfl

theorem zInv_refl (s0 : ZState) : ZInv s0 s0 [] :=
  ⟨fun _ h => h, fun a ha => absurd ha (List.not_mem_nil a), by simp⟩

theorem zInv_addToResult (s0 st : ZState) (acc : List ZAnn) (a : ZAnn)
    (h : ZInv s0 st acc) :
    ZInv s0 (addToResultIfUnique st acc a).1 (addToResultIfUnique st acc a).2 := by
  obtain ⟨h1, h2, h3⟩ := h
  unfold addToResultIfUnique
  by_cases he : a.title = ""
  · simp only [he, if_pos rfl]
    exact ⟨h1, h2, h3⟩
  · by_cases hm : a.title ∈ st.seen_titles
    · simp only [if_neg he, if_pos hm]
      exact ⟨h1, h2, h3⟩
    · simp only [if_neg he, if_neg hm]
      refine ⟨?_, ?_, ?_⟩
      · intro x hx
        exact List.mem_cons_of_mem _ (h1 hx)
      · intro b hb hbe
        rcases List.mem_append.mp hb with hb1 | hb2
        · rcases h2 b hb1 hbe with ⟨hin, hnot⟩
          exact ⟨List.mem_cons_of_mem _ hin, hnot⟩
        · have hba : b = a := by simpa using hb2
          subst hba
          exact ⟨List.mem_cons_self _ _, fun hcon => hm (h1 hcon)⟩
      · rw [List.filter_append, List.map_append]
        by_cases hae : a.event_type = "event"
        · rw [show List.filter (fun x => x.event_type == "event") [a] = [a] by
            simp [hae]]
          refine List.Nodup.append h3 (by simp) ?_
          intro t ht ht2
          have hta : t = a.title := by simpa using ht2
          rcases List.mem_map.mp ht with ⟨b, hbf, hbt⟩
          have hbmem := List.mem_filter.mp hbf
          have hbin := (h2 b hbmem.1 (by simpa using hbmem.2)).1
          rw [hbt] at hbin
          exact hm (hta ▸ hbin)
        · rw [show List.filter (fun x => x.event_type == "event") [a] = [] by
            simp [hae]]
          simpa using h3

theorem zInv_append (s0 st : ZState) (acc : List ZAnn) (a : ZAnn)
    (hne : a.event_type ≠ "event") (h : ZInv s0 st acc) : ZInv s0 st (acc ++ [a]) := by
  obtain ⟨h1, h2, h3⟩ := h
  refine ⟨h1, ?_, ?_⟩
  · intro b hb hbe
    rcases List.mem_append.mp hb with hb1 | hb2
    · exact h2 b hb1 hbe
    · have hba : b = a := by simpa using hb2
      exact absurd (hba ▸ hbe) hne
  · rw [List.filter_append, List.map_append,
      show List.filter (fun x => x.event_type == "event") [a] = [] by simp [hne]]
    simpa using h3

theorem zInv_seen_eq (s0 st st' : ZState) (acc : List ZAnn)
    (hs : st'.seen_titles = st.seen_titles) (h : ZInv s0 st acc) : ZInv s0 st' acc := by
  obtain ⟨h1, h2, h3⟩ := h
  refine ⟨?_, ?_, h3⟩
  · rw [hs]; exact h1
  · intro b hb hbe
    rw [hs]
    exact h2 b hb hbe

theorem zVersionStubs_inv (raw : ZRaw) (lang : String) (s0 : ZState) :
    ∀ (l : List ZStub) (st : ZState) (acc : List ZAnn), ZInv s0 st acc →
      ZInv s0 (zVersionStubs raw lang l st acc).1 (zVersionStubs raw lang l st acc).2 := by
  intro l
  induction l with
  | nil => intro st acc h; exact h
  | cons a rest ih =>
    intro st acc h
    unfold zVersionStubs
    dsimp only
    by_cases hcond : (strHas (stripTags (getZhTitle raw a)) "更新说明" &&
        strHas (stripTags (getZhTitle raw a)) "版本") = true
    · rw [if_pos hcond]
      refine zInv_append s0 _ acc _ ?_ ?_
      · show ("version" : String) ≠ "event"
        decide
      · refine zInv_seen_eq s0 st _ acc ?_ h
        rcases extractFloats (stripTags (getZhTitle raw a)) with _ | ⟨v, vs⟩ <;> rfl
    · rw [if_neg hcond]
      exact ih st acc h

theorem zVersionItems_inv (raw : ZRaw) (lang : String) (s0 : ZState) :
    ∀ (l : List ZItem) (st : ZState) (acc : List ZAnn), ZInv s0 st acc →
      ZInv s0 (zVersionItems raw lang l st acc).1 (zVersionItems raw lang l st acc).2 := by
  intro l
  induction l with
  | nil => intro st acc h; exact h
  | cons it rest ih =>
    intro st acc h
    unfold zVersionItems
    split_ifs with hl
    · rcases hv : zVersionStubs raw lang it.list st acc with ⟨st1, acc1⟩
      have h1 := zVersionStubs_inv raw lang s0 it.list st acc h
      rw [hv] at h1
      exact ih st1 acc1 h1
    · exact ih st acc h

theorem zParseVersion_inv (raw : ZRaw) (lang : String) (s0 st : ZState)
    (acc : List ZAnn) (h : ZInv s0 st acc) :
    ZInv s0 (zParseVersion raw lang st acc).1 (zParseVersion raw lang st acc).2 := by
  unfold zParseVersion
  rcases (zhListOf raw).data with _ | pl
  · exact h
  · exact zVersionItems_inv raw lang s0 pl.list st acc h

theorem zNormalStub_inv (raw : ZRaw) (lang : String) (s0 : ZState) (a : ZStub)
    (st : ZState) (acc : List ZAnn) (h : ZInv s0 st acc) :
    ZInv s0 (zNormalStub raw lang a st acc).1 (zNormalStub raw lang a st acc).2 := by
  unfold zNormalStub
  rcases mapGet raw.zhContentMap a.ann_id with _ | zc
  · exact h
  · dsimp only
    by_cases hcond : (!zIsValidEvent (stripTags zc.title) ||
        zc.paras.any fun p => strHas p "累计登录7天") = true
    · rw [if_pos hcond]
      exact h
    · rw [if_neg hcond]
      rcases getTargetLangAnnouncement raw a lang with _ | target
      · exact h
      · exact zInv_addToResult s0 st acc _ h

theorem zNormalStubs_inv (raw : ZRaw) (lang : String) (s0 : ZState) :
    ∀ (l : List ZStub) (st : ZState) (acc : List ZAnn), ZInv s0 st acc →
      ZInv s0 (zNormalStubs raw lang l st acc).1 (zNormalStubs raw lang l st acc).2 := by
  intro l
  induction l with
  | nil => intro st acc h; exact h
  | cons a rest ih =>
    intro st acc h
    unfold zNormalStubs
    rcases hv : zNormalStub raw lang a st acc with ⟨st1, acc1⟩
    have h1 := zNormalStub_inv raw lang s0 a st acc h
    rw [hv] at h1
    exact ih st1 acc1 h1

theorem zNormalItems_inv (raw : ZRaw) (lang : String) (s0 : ZState) :
    ∀ (l : List ZItem) (st : ZState) (acc : List ZAnn), ZInv s0 st acc →
      ZInv s0 (zNormalItems raw lang l st acc).1 (zNormalItems raw lang l st acc).2 := by
  intro l
  induction l with
  | nil => intro st acc h; exact h
  | cons it rest ih =>
    intro st acc h
    unfold zNormalItems
    split_ifs with hl
    · rcases hv : zNormalStubs raw lang it.list st acc with ⟨st1, acc1⟩
      have h1 := zNormalStubs_inv raw lang s0 it.list st acc h
      rw [hv] at h1
      exact ih st1 acc1 h1
    · exact ih st acc h

theorem zParseNormal_inv (raw : ZRaw) (lang : String) (s0 st : ZState)
    (acc : List ZAnn) (h : ZInv s0 st acc) :
    ZInv s0 (zParseNormal raw lang st acc).1 (zParseNormal raw lang st acc).2 := by
  unfold zParseNormal
  rcases (zhListOf raw).data with _ | pl
  · exact h
  · exact zNormalItems_inv raw lang s0 pl.list st acc h

theorem zPicStubStep_inv (raw : ZRaw) (lang : String) (s0 : ZState) (a : ZPicStub)
    (st : ZState) (acc : List ZAnn) (h : ZInv s0 st acc) :
    ZInv s0 (zPicStubStep raw lang a st acc).1 (zPicStubStep raw lang a st acc).2 := by
  unfold zPicStubStep
  rcases mapGet raw.zhPicContentMap a.ann_id with _ | zc
  · exact h
  · dsimp only
    by_cases hcond : (!zIsValidEvent (stripTags zc.title)) = true
    · rw [if_pos hcond]
      exact h
    · rw [if_neg hcond]
      rcases getTargetLangPicAnnouncement raw a lang with _ | target
      · exact h
      · exact zInv_addToResult s0 st acc _ h

theorem zPicStubs_inv (raw : ZRaw) (lang : String) (s0 : ZState) :
    ∀ (l : List ZPicStub) (st : ZState) (acc : List ZAnn), ZInv s0 st acc →
      ZInv s0 (zPicStubs raw lang l st acc).1 (zPicStubs raw lang l st acc).2 := by
  intro l
  induction l with
  | nil => intro st acc h; exact h
  | cons a rest ih =>
    intro st acc h
    unfold zPicStubs
    rcases hv : zPicStubStep raw lang a st acc with ⟨st1, acc1⟩
    have h1 := zPicStubStep_inv raw lang s0 a st acc h
    rw [hv] at h1
    exact ih st1 acc1 h1

theorem zPicTypeItems_inv (raw : ZRaw) (lang : String) (s0 : ZState) :
    ∀ (l : List ZPicTypeItem) (st : ZState) (acc : List ZAnn), ZInv s0 st acc →
      ZInv s0 (zPicTypeItems raw lang l st acc).1 (zPicTypeItems raw lang l st acc).2 := by
  intro l
  induction l with
  | nil => intro st acc h; exact h
  | cons ti rest ih =>
    intro st acc h
    unfold zPicTypeItems
    rcases hv : zPicStubs raw lang ti.list st acc with ⟨st1, acc1⟩
    have h1 := zPicStubs_inv raw lang s0 ti.list st acc h
    rw [hv] at h1
    exact ih st1 acc1 h1

theorem zPicItems_inv (raw : ZRaw) (lang : String) (s0 : ZState) :
    ∀ (l : List ZPicItem) (st : ZState) (acc : List ZAnn), ZInv s0 st acc →
      ZInv s0 (zPicItems raw lang l st acc).1 (zPicItems raw lang l st acc).2 := by
  intro l
  induction l with
  | nil => intro st acc h; exact h
  | cons it rest ih =>
    intro st acc h
    unfold zPicItems
    rcases hv : zPicTypeItems raw lang it.type_list st acc with ⟨st1, acc1⟩
    have h1 := zPicTypeItems_inv raw lang s0 it.type_list st acc h
    rw [hv] at h1
    exact ih st1 acc1 h1

theorem zParsePic_inv (raw : ZRaw) (lang : String) (s0 st : ZState)
    (acc : List ZAnn) (h : ZInv s0 st acc) :
    ZInv s0 (zParsePic raw lang st acc).1 (zParsePic raw lang st acc).2 := by
  unfold zParsePic
  rcases (zhListOf raw).data with _ | pl
  · exact h
  · exact zPicItems_inv raw lang s0 pl.pic_list st acc h

theorem zGachaStubs_inv (raw : ZRaw) (lang : String) (s0 : ZState) :
    ∀ (l : List ZStub) (st : ZState) (acc : List ZAnn), ZInv s0 st acc →
      ZInv s0 (zGachaStubs raw lang l st acc).1 (zGachaStubs raw lang l st acc).2 := by
  intro l
  induction l with
  | nil => intro st acc h; exact h
  | cons a rest ih =>
    intro st acc h
    unfold zGachaStubs
    rcases mapGet raw.zhContentMap a.ann_id with _ | zc
    · exact ih st acc h
    · dsimp only
      by_cases hcond : (!strHas (stripTags zc.title) "限时频段" &&
          !strHas (stripTags zc.title) "调频") = true
      · rw [if_pos hcond]
        exact ih st acc h
      · rw [if_neg hcond]
        rcases getTargetLangAnnouncement raw a lang with _ | target
        · exact ih st acc h
        · refine ih st _ (zInv_append s0 st acc _ ?_ h)
          show ("gacha" : String) ≠ "event"
          decide

theorem zGachaItems_inv (raw : ZRaw) (lang : String) (s0 : ZState) :
    ∀ (l : List ZItem) (st : ZState) (acc : List ZAnn), ZInv s0 st acc →
      ZInv s0 (zGachaItems raw lang l st acc).1 (zGachaItems raw lang l st acc).2 := by
  intro l
  induction l with
  | nil => intro st acc h; exact h
  | cons it rest ih =>
    intro st acc h
    unfold zGachaItems
    split_ifs with hl
    · rcases hv : zGachaStubs raw lang it.list st acc with ⟨st1, acc1⟩
      have h1 := zGachaStubs_inv raw lang s0 it.list st acc h
      rw [hv] at h1
      exact ih st1 acc1 h1
    · exact ih st acc h

theorem zPicGachaStubs_inv (raw : ZRaw) (lang : String) (s0 : ZState) :
    ∀ (l : List ZPicStub) (st : ZState) (acc : List ZAnn), ZInv s0 st acc →
      ZInv s0 (zPicGachaStubs raw lang l st acc).1 (zPicGachaStubs raw lang l st acc).2 := by
  intro l
  induction l with
  | nil => intro st acc h; exact h
  | cons a rest ih =>
    intro st acc h
    unfold zPicGachaStubs
    rcases mapGet raw.zhPicContentMap a.ann_id with _ | zc
    · exact ih st acc h
    · dsimp only
      by_cases hcond : (!strHas (stripTags zc.title) "限时频段" &&
          !strHas (stripTags zc.title) "调频") = true
      · rw [if_pos hcond]
        exact ih st acc h
      · rw [if_neg hcond]
        rcases getTargetLangPicAnnouncement raw a lang with _ | target
        · exact ih st acc h
        · refine ih st _ (zInv_append s0 st acc _ ?_ h)
          show ("gacha" : String) ≠ "event"
          decide

theorem zPicGachaTypeItems_inv (raw : ZRaw) (lang : String) (s0 : ZState) :
    ∀ (l : List ZPicTypeItem) (st : ZState) (acc : List ZAnn), ZInv s0 st acc →
      ZInv s0 (zPicGachaTypeItems raw lang l st acc).1
        (zPicGachaTypeItems raw lang l st acc).2 := by
  intro l
  induction l with
  | nil => intro st acc h; exact h
  | cons ti rest ih =>
    intro st acc h
    unfold zPicGachaTypeItems
    rcases hv : zPicGachaStubs raw lang ti.list st acc with ⟨st1, acc1⟩
    have h1 := zPicGachaStubs_inv raw lang s0 ti.list st acc h
    rw [hv] at h1
    exact ih st1 acc1 h1

theorem zPicGachaItems_inv (raw : ZRaw) (lang : String) (s0 : ZState) :
    ∀ (l : List ZPicItem) (st : ZState) (acc : List ZAnn), ZInv s0 st acc →
      ZInv s0 (zPicGachaItems raw lang l st acc).1 (zPicGachaItems raw lang l st acc).2 := by
  intro l
  induction l with
  | nil => intro st acc h; exact h
  | cons it rest ih =>
    intro st acc h
    unfold zPicGachaItems
    rcases hv : zPicGachaTypeItems raw lang it.type_list st acc with ⟨st1, acc1⟩
    have h1 := zPicGachaTypeItems_inv raw lang s0 it.type_list st acc h
    rw [hv] at h1
    exact ih st1 acc1 h1

theorem zParseGacha_inv (raw : ZRaw) (lang : String) (s0 st : ZState)
    (acc : List ZAnn) (h : ZInv s0 st acc) :
    ZInv s0 (zParseGacha raw lang st acc).1 (zParseGacha raw lang st acc).2 := by
  unfold zParseGacha
  rcases (zhListOf raw).data with _ | pl
  · exact h
  · dsimp only
    rcases hv : zGachaItems raw lang pl.list st acc with ⟨st1, acc1⟩
    have h1 := zGachaItems_inv raw lang s0 pl.list st acc h
    rw [hv] at h1
    exact zPicGachaItems_inv raw lang s0 pl.pic_list st1 acc1 h1

theorem zParse_eq (st : ZState) (raw : ZRaw) (lang0 : String) :
    ∃ lang : String, zParse st raw lang0 =
      ((zParseGacha raw lang
          (zParsePic raw lang
            (zParseNormal raw lang
              (zParseVersion raw lang st []).1 (zParseVersion raw lang st []).2).1
            (zParseNormal raw lang
              (zParseVersion raw lang st []).1 (zParseVersion raw lang st []).2).2).1
          (zParsePic raw lang
            (zParseNormal raw lang
              (zParseVersion raw lang st []).1 (zParseVersion raw lang st []).2).1
            (zParseNormal raw lang
              (zParseVersion raw lang st []).1 (zParseVersion raw lang st []).2).2).2).2,
       (zParseGacha raw lang
          (zParsePic raw lang
            (zParseNormal raw lang
              (zParseVersion raw lang st []).1 (zParseVersion raw lang st []).2).1
            (zParseNormal raw lang
              (zParseVersion raw lang st []).1 (zParseVersion raw lang st []).2).2).1
          (zParsePic raw lang
            (zParseNormal raw lang
              (zParseVersion raw lang st []).1 (zParseVersion raw lang st []).2).1
            (zParseNormal raw lang
              (zParseVersion raw lang st []).1 (zParseVersion raw lang st []).2).2).2).1) := by
  refine ⟨if (if lang0 = "zh-Hans" then "zh-cn"
      else if lang0 = "zh-Hant" then "zh-tw" else lang0) ∈ zSupportedLanguages then
      (if lang0 = "zh-Hans" then "zh-cn"
        else if lang0 = "zh-Hant" then "zh-tw" else lang0)
    else "zh-cn", ?_⟩
  rfl

theorem zParse_inv (st : ZState) (raw : ZRaw) (lang0 : String) :
    ZInv st (zParse st raw lang0).2 (zParse st raw lang0).1 := by
  obtain ⟨lang, heq⟩ := zParse_eq st raw lang0
  rw [heq]
  have i1 := zParseVersion_inv raw lang st st [] (zInv_refl st)
  have i2 := zParseNormal_inv raw lang st _ _ i1
  have i3 := zParsePic_inv raw lang st _ _ i2
  have i4 := zParseGacha_inv raw lang st _ _ i3
  exact i4

/-- C10 (amended): `seen_titles` is instance state never reset between
parse calls, but only the regular-event and picture-event passes go
through the `_add_to_result_if_unique` gate.  Hence: across any sequence
of parse calls on one instance, no two event-pass records share a title
(within a call and across calls), and a repeated parse omits previously
returned event-pass records — while version and gacha records bypass the
gate and are emitted again (see the counterexample), so parse is still
not a pure function of its arguments. -/
theorem zenless_seen_titles_gate (st : ZState) (raw : ZRaw) (lang : String) :
    st.seen_titles ⊆ (zParse st raw lang).2.seen_titles
    ∧ (∀ a ∈ (zParse st raw lang).1, a.event_type = "event" →
        a.title ∉ st.seen_titles ∧ a.title ∈ (zParse st raw lang).2.seen_titles)
    ∧ (((zParse st raw lang).1.filter (fun a => a.event_type == "event")).map (·.title)).Nodup
    ∧ (∀ raw2 lang2, ∀ b ∈ (zParse (zParse st raw lang).2 raw2 lang2).1,
        b.event_type = "event" →
        ∀ a ∈ (zParse st raw lang).1, a.event_type = "event" → b.title ≠ a.title) := by
  obtain ⟨h1, h2, h3⟩ := zParse_inv st raw lang
  refine ⟨h1, ?_, h3, ?_⟩
  · intro a ha hae
    rcases h2 a ha hae with ⟨hin, hnot⟩
    exact ⟨hnot, hin⟩
  · intro raw2 lang2 b hb hbe a ha hae heq
    obtain ⟨g1, g2, g3⟩ := zParse_inv (zParse st raw lang).2 raw2 lang2
    have hbnot := (g2 b hb hbe).2
    have hain := (h2 a ha hae).1
    rw [heq] at hbnot
    exact hbnot hain

/-- Witness for the amended C10: a concrete event record admitted through
the gate has a title that was unseen before the call and is registered
afterwards. -/
theorem zenless_seen_titles_gate_witness :
    evAnn.title ∉ initZState.seen_titles
    ∧ evAnn.title ∈ (zParse initZState zrawE "zh-cn").2.seen_titles :=
  (zenless_seen_titles_gate initZState zrawE "zh-cn").2.1 evAnn (by decide) (by decide)

/-- C10 counterexample: re-parsing the identical raw bundle on the same
parser instance returns the version record a second time — its title was
already returned by the first call, so the claimed "no two returned
records across calls share a title / every previously returned title is
omitted" behaviour does not hold (the version pass never consults
`seen_titles`). -/
theorem zenless_reparse_counterexample :
    ((zParse initZState zraw0 "zh-cn").1).map (·.title) = ["绝区零 1.4 版本"]
    ∧ ((zParse (zParse initZState zraw0 "zh-cn").2 zraw0 "zh-cn").1).map (·.title) =
        ["绝区零 1.4 版本"] := by
  constructor
  · decide
  · decide
